import Mathlib

/-!
Verification of the duty-pharmacy ETL parsers (`etl/unppci_parse_pdf.py`,
`etl/annuaireci_scrape.py`) against their natural-language specification.

The Python code is shallowly embedded: text is `List Char`, the specific
regular expressions of the source are implemented as deterministic scanners
that mirror the backtracking behaviour of `re` on those exact patterns, the
BeautifulSoup document is modelled as a flat sequence of sibling elements
(tag name plus text), and the ambient clock (`datetime.now` / `date.today`)
is an explicit argument.  Fallible code returns `Except`.
-/

abbrev Str := List Char

def S (s : String) : Str := s.data

/-! ### Character classes (mirroring Python `str` / `re` semantics on the
character repertoire these documents use) -/

def isPySpace (c : Char) : Bool :=
  c = ' ' || c = '\t' || c = '\n' || c = '\r' || c = '\u000B' || c = '\u000C' ||
  c = ' '

/-- Python `str.upper()` restricted to the repertoire of these documents:
ASCII letters and the accented letters appearing in `_ACC` / `MONTHS`. -/
def pyUpper (c : Char) : Char :=
  match c with
  | 'a' => 'A' | 'b' => 'B' | 'c' => 'C' | 'd' => 'D' | 'e' => 'E' | 'f' => 'F'
  | 'g' => 'G' | 'h' => 'H' | 'i' => 'I' | 'j' => 'J' | 'k' => 'K' | 'l' => 'L'
  | 'm' => 'M' | 'n' => 'N' | 'o' => 'O' | 'p' => 'P' | 'q' => 'Q' | 'r' => 'R'
  | 's' => 'S' | 't' => 'T' | 'u' => 'U' | 'v' => 'V' | 'w' => 'W' | 'x' => 'X'
  | 'y' => 'Y' | 'z' => 'Z'
  | 'é' => 'É' | 'è' => 'È' | 'ê' => 'Ê' | 'ë' => 'Ë' | 'â' => 'Â' | 'à' => 'À'
  | 'î' => 'Î' | 'ï' => 'Ï' | 'ô' => 'Ô' | 'ö' => 'Ö' | 'û' => 'Û' | 'ü' => 'Ü'
  | 'ç' => 'Ç'
  | other => other

def accUpperList : Str :=
  ['É', 'È', 'Ê', 'Ë', 'Â', 'À', 'Î', 'Ï', 'Ô', 'Ö', 'Û', 'Ü', 'Ç']

def accLowerList : Str :=
  ['é', 'è', 'ê', 'ë', 'â', 'à', 'î', 'ï', 'ô', 'ö', 'û', 'ü', 'ç']

/-- The `[{_ACC}]` class (uppercase only, as used by `re.findall` without
flags in `looks_like_area`). -/
def isAccUpper (c : Char) : Bool :=
  ('A' ≤ c && c ≤ 'Z') || accUpperList.contains c

/-- The `[{_ACC}]` class under `re.IGNORECASE` (as used by the week regexes). -/
def isAccLetter (c : Char) : Bool :=
  ('A' ≤ c && c ≤ 'Z') || ('a' ≤ c && c ≤ 'z') ||
  accUpperList.contains c || accLowerList.contains c

/-- Python `\w` (word character, for `\b` boundaries) on our repertoire. -/
def isWordChar (c : Char) : Bool :=
  ('A' ≤ c && c ≤ 'Z') || ('a' ≤ c && c ≤ 'z') || c.isDigit || c = '_' ||
  accUpperList.contains c || accLowerList.contains c

/-! ### Basic list-of-char utilities -/

def lstripWs (s : Str) : Str := s.dropWhile (fun c => isPySpace c)

def rstripWs (s : Str) : Str := (s.reverse.dropWhile (fun c => isPySpace c)).reverse

def stripWs (s : Str) : Str := rstripWs (lstripWs s)

/-- Case-sensitive prefix test. -/
def hasPre : Str → Str → Bool
  | [], _ => true
  | _ :: _, [] => false
  | p :: ps, c :: cs => if p = c then hasPre ps cs else false

/-- Case-sensitive substring test. -/
def containsStr (pat : Str) : Str → Bool
  | [] => hasPre pat []
  | c :: rest => hasPre pat (c :: rest) || containsStr pat rest

/-- Case-insensitive prefix test (folding through `pyUpper`). -/
def hasPreCI : Str → Str → Bool
  | [], _ => true
  | _ :: _, [] => false
  | p :: ps, c :: cs => if pyUpper p = pyUpper c then hasPreCI ps cs else false

def listJoin {α : Type} : List (List α) → List α
  | [] => []
  | l :: ls => l ++ listJoin ls

/-- `" ".join`-style interleaving. -/
def unwords : List Str → Str
  | [] => []
  | [w] => w
  | w :: v :: ws => w ++ ' ' :: unwords (v :: ws)

/-- Maximal runs of characters satisfying `p` (used for Python `str.split()`
with `p` = non-space, and `re.findall("[…]+")` with `p` = class membership). -/
def runsAux (p : Char → Bool) : Str → Str → List Str
  | cur, [] => if cur.isEmpty then [] else [cur.reverse]
  | cur, c :: rest =>
    if p c then runsAux p (c :: cur) rest
    else if cur.isEmpty then runsAux p [] rest
    else cur.reverse :: runsAux p [] rest

/-- Python `str.split()` (split on whitespace, dropping empty fragments). -/
def pyWords (s : Str) : List Str := runsAux (fun c => !isPySpace c) [] s

def replNbsp (c : Char) : Char := if c = ' ' then ' ' else c

/-- `clean_text` of `annuaireci_scrape.py`:
`" ".join(s.replace(nbsp, " ").split()).strip()`. -/
def clean_text (s : Str) : Str := stripWs (unwords (pyWords (s.map replNbsp)))

/-- `re.sub(r"\s+", " ", s)`: collapse each whitespace run to one space. -/
def collapseWs : Str → Str
  | [] => []
  | [c] => if isPySpace c then [' '] else [c]
  | c :: d :: rest =>
    if isPySpace c then
      if isPySpace d then collapseWs (d :: rest) else ' ' :: collapseWs (d :: rest)
    else c :: collapseWs (d :: rest)

/-- `re.sub(r"(\d)SEMAINE", r"\1 SEMAINE", s, flags=re.IGNORECASE)`. -/
def fixSemaine : Str → Str
  | [] => []
  | c :: rest =>
    if c.isDigit && hasPreCI (S "SEMAINE") rest then c :: ' ' :: fixSemaine rest
    else c :: fixSemaine rest

/-- `clean` of `unppci_parse_pdf.py`: nbsp replacement, strip, whitespace
collapse, page-break repair, strip. -/
def clean (s : Str) : Str :=
  stripWs (fixSemaine (collapseWs (stripWs (s.map replNbsp))))

/-! ### Phone extraction -/

/-- The split class of `re.split(r"[\/|,;]", text)`. -/
def isPhoneSplitSep (c : Char) : Bool := c = '/' || c = '|' || c = ',' || c = ';'

def splitSepsAux : Str → Str → List Str
  | cur, [] => [cur.reverse]
  | cur, c :: rest =>
    if isPhoneSplitSep c then cur.reverse :: splitSepsAux [] rest
    else splitSepsAux (c :: cur) rest

/-- `re.split(r"[\/|,;]", text)` (keeps empty fragments, as `re.split` does). -/
def splitSeps (s : Str) : List Str := splitSepsAux [] s

/-- First-occurrence-preserving deduplication with an explicit seen set,
as both Python extractors implement it. -/
def dedupeFirstAux (seen : List Str) : List Str → List Str
  | [] => []
  | x :: xs =>
    if x ∈ seen then dedupeFirstAux seen xs
    else x :: dedupeFirstAux (x :: seen) xs

/-- `extract_phones` of `unppci_parse_pdf.py` (PDF path): keep fragments
whose digit reduction has exactly 8 or 10 digits; no chunking of longer
fragments. -/
def extract_phones_pdf (text : Str) : List Str :=
  let phones := (splitSeps text).filterMap (fun p =>
    let digits := p.filter Char.isDigit
    if digits.length = 8 ∨ digits.length = 10 then some digits else none)
  dedupeFirstAux [] phones

/-- `_split_long_number` of `annuaireci_scrape.py`.  The `while pos < len`
loop is rendered with a step-count fuel; callers pass `digits.length`,
which bounds the iteration count since every step consumes at least 8
characters. -/
def splitLongNumber : Nat → Str → List Str
  | 0, _ => []
  | fuel + 1, ds =>
    if 10 ≤ ds.length then ds.take 10 :: splitLongNumber fuel (ds.drop 10)
    else if ds.length = 8 then [ds]
    else []

/-- Per-fragment behaviour of `extract_phones` of `annuaireci_scrape.py`. -/
def htmlFragPhones (p : Str) : List Str :=
  let p2 := clean_text p
  if p2.isEmpty then []
  else
    let digits := p2.filter Char.isDigit
    if digits.length = 8 ∨ digits.length = 10 then [digits]
    else if 10 < digits.length then splitLongNumber digits.length digits
    else []

/-- `extract_phones` of `annuaireci_scrape.py` (HTML path): 8/10-digit
fragments verbatim, longer fragments greedily chunked 10-then-8. -/
def extract_phones_html (text : Str) : List Str :=
  dedupeFirstAux [] (listJoin ((splitSeps text).map htmlFragPhones))

/-! ### Dates and the three week-header regexes -/

structure PDate where
  y : Nat
  m : Nat
  d : Nat
deriving DecidableEq, Repr

def isLeap (y : Nat) : Bool := (y % 4 = 0 && y % 100 ≠ 0) || y % 400 = 0

def daysInMonth (y m : Nat) : Nat :=
  if m = 2 then (if isLeap y then 29 else 28)
  else if m = 4 ∨ m = 6 ∨ m = 9 ∨ m = 11 then 30
  else 31

/-- The error channel: `ValueError("Mois inconnu …")`, the `ValueError`
raised by `datetime.date` on an out-of-range component, the dedicated
`ScrapingStructureError`, and the `ValueError` of `dateutil` parsing. -/
inductive PErr where
  | unknownMonth (name : String)
  | badDate (y m d : Nat)
  | structural (msg : String)
  | valueError (msg : String)
deriving DecidableEq, Repr

/-- `datetime.date(y, m, d)`: raises on out-of-range components. -/
def mkDate (y m d : Nat) : Except PErr PDate :=
  if 1 ≤ y ∧ y ≤ 9999 ∧ 1 ≤ m ∧ m ≤ 12 ∧ 1 ≤ d ∧ d ≤ daysInMonth y m then
    .ok ⟨y, m, d⟩
  else .error (.badDate y m d)

def MONTHS : List (String × Nat) :=
  [("JANVIER", 1), ("FEVRIER", 2), ("FÉVRIER", 2), ("MARS", 3), ("AVRIL", 4),
   ("MAI", 5), ("JUIN", 6), ("JUILLET", 7), ("AOUT", 8), ("AOÛT", 8),
   ("SEPTEMBRE", 9), ("OCTOBRE", 10), ("NOVEMBRE", 11), ("DECEMBRE", 12),
   ("DÉCEMBRE", 12)]

def monthLookup (key : Str) : List (String × Nat) → Option Nat
  | [] => none
  | (k, v) :: rest => if k.data = key then some v else monthLookup key rest

/-- `MONTHS.get(month_name.upper())`. -/
def monthNum (name : Str) : Option Nat := monthLookup (name.map pyUpper) MONTHS

/-- `fr_date_to_iso` (returning the date; its string rendering is
`isoDate`). -/
def fr_date_to_iso (day : Nat) (monthName : Str) (year : Nat) : Except PErr PDate :=
  match monthNum monthName with
  | none => .error (.unknownMonth (String.mk monthName))
  | some m => mkDate year m day

def natDigitsAux : Nat → Nat → Str
  | 0, _ => []
  | fuel + 1, n =>
    if n = 0 then [] else natDigitsAux fuel (n / 10) ++ [Char.ofNat (48 + n % 10)]

def padNum (width n : Nat) : Str :=
  let s := if n = 0 then ['0'] else natDigitsAux n n
  List.replicate (width - s.length) '0' ++ s

/-- `date.isoformat()`: zero-padded `YYYY-MM-DD`. -/
def isoDate (d : PDate) : String :=
  String.mk (padNum 4 d.y ++ '-' :: padNum 2 d.m ++ '-' :: padNum 2 d.d)

/-- Chronological comparison of dates (year, then month, then day). -/
def dateLe (a b : PDate) : Bool :=
  if a.y = b.y then (if a.m = b.m then a.d ≤ b.d else a.m ≤ b.m) else a.y ≤ b.y

/-! Scanner combinators for the specific week-header regexes.  Each
quantifier in those patterns is followed by a token its own character
class cannot match, so maximal-munch scanning coincides with the
backtracking semantics of `re.search`. -/

/-- Consume a literal, case-insensitively (`re.IGNORECASE`). -/
def litCI : Str → Str → Option Str
  | [], s => some s
  | _ :: _, [] => none
  | p :: ps, c :: cs => if pyUpper p = pyUpper c then litCI ps cs else none

/-- `\s+`: at least one whitespace character, consumed maximally. -/
def wsPlus : Str → Option Str
  | [] => none
  | c :: cs => if isPySpace c then some (cs.dropWhile (fun x => isPySpace x)) else none

/-- `[{_ACC}]+` (ignore-case): a maximal nonempty run of letters. -/
def accRun (s : Str) : Option (Str × Str) :=
  let run := s.takeWhile (fun c => isAccLetter c)
  if run.isEmpty then none else some (run, s.drop run.length)

/-- `(?:[{_ACC}]+\s+)?`: the optional day-of-week token.  If letters are
present but not followed by whitespace the group cannot participate in a
match (the following `\d` fails either way), matching `re` backtracking. -/
def optDow (s : Str) : Str :=
  match accRun s with
  | none => s
  | some (_, rest) =>
    match wsPlus rest with
    | none => s
    | some rest2 => rest2

def digitVal (c : Char) : Nat := c.toNat - 48

/-- `(\d{1,2})` in a context followed by `\s+`: a digit run of length one
or two (a third digit makes the subsequent `\s+` unsatisfiable under any
backtracking split). -/
def digits12 : Str → Option (Nat × Str)
  | [] => none
  | [c] => if c.isDigit then some (digitVal c, []) else none
  | c :: d :: rest =>
    if c.isDigit then
      if d.isDigit then
        match rest with
        | [] => some (10 * digitVal c + digitVal d, [])
        | e :: _ =>
          if e.isDigit then none
          else some (10 * digitVal c + digitVal d, rest)
      else some (digitVal c, d :: rest)
    else none

/-- `(\d{4})`: exactly four digits. -/
def digits4 : Str → Option (Nat × Str)
  | a :: b :: c :: d :: rest =>
    if a.isDigit && b.isDigit && c.isDigit && d.isDigit then
      some (1000 * digitVal a + 100 * digitVal b + 10 * digitVal c + digitVal d, rest)
    else none
  | _ => none

/-- `SEMAINE\\s+DU\\s+`: the shared prefix of the three week regexes. -/
def weekPre (s : Str) : Option Str :=
  (litCI (S "SEMAINE") s).bind fun s1 =>
  (wsPlus s1).bind fun s2 =>
  (litCI (S "DU") s2).bind fun s3 =>
  wsPlus s3

/-- Optional day-of-week, then `(\\d{1,2})\\s+`. -/
def dayWs (s : Str) : Option (Nat × Str) :=
  (digits12 (optDow s)).bind fun p =>
  (wsPlus p.2).bind fun r =>
  some (p.1, r)

/-- `([{_ACC}]+)\\s+`. -/
def monWs (s : Str) : Option (Str × Str) :=
  (accRun s).bind fun p =>
  (wsPlus p.2).bind fun r =>
  some (p.1, r)

/-- `AU\\s+`. -/
def auWs (s : Str) : Option Str :=
  (litCI (S "AU") s).bind fun s1 => wsPlus s1

/-- `(\\d{4})\\s+`. -/
def y4Ws (s : Str) : Option (Nat × Str) :=
  (digits4 s).bind fun p =>
  (wsPlus p.2).bind fun r =>
  some (p.1, r)

/-- `WEEK_RE_A` anchored at the current position:
day, day, shared month, shared year. -/
def matchWeekA (s : Str) : Option (Nat × Nat × Str × Nat) :=
  (weekPre s).bind fun s0 =>
  (dayWs s0).bind fun p1 =>
  (auWs p1.2).bind fun s1 =>
  (dayWs s1).bind fun p2 =>
  (monWs p2.2).bind fun pm =>
  (digits4 pm.2).bind fun py =>
  some (p1.1, p2.1, pm.1, py.1)

/-- `WEEK_RE_B` anchored at the current position:
day, month, day, month, shared year. -/
def matchWeekB (s : Str) : Option (Nat × Str × Nat × Str × Nat) :=
  (weekPre s).bind fun s0 =>
  (dayWs s0).bind fun p1 =>
  (monWs p1.2).bind fun pm1 =>
  (auWs pm1.2).bind fun s1 =>
  (dayWs s1).bind fun p2 =>
  (monWs p2.2).bind fun pm2 =>
  (digits4 pm2.2).bind fun py =>
  some (p1.1, pm1.1, p2.1, pm2.1, py.1)

/-- `WEEK_RE_C` anchored at the current position: two full dates. -/
def matchWeekC (s : Str) : Option (Nat × Str × Nat × Nat × Str × Nat) :=
  (weekPre s).bind fun s0 =>
  (dayWs s0).bind fun p1 =>
  (monWs p1.2).bind fun pm1 =>
  (y4Ws pm1.2).bind fun py1 =>
  (auWs py1.2).bind fun s1 =>
  (dayWs s1).bind fun p2 =>
  (monWs p2.2).bind fun pm2 =>
  (digits4 pm2.2).bind fun py2 =>
  some (p1.1, pm1.1, py1.1, p2.1, pm2.1, py2.1)

/-- `re.search`: try the anchored matcher at each position, leftmost first. -/
def searchAux {α : Type} (m : Str → Option α) : Str → Option α
  | [] => none
  | c :: rest =>
    match m (c :: rest) with
    | some r => some r
    | none => searchAux m rest

/-- Resolve the two matched dates of a week header. -/
def frPair (d1 : Nat) (m1 : Str) (y1 : Nat) (d2 : Nat) (m2 : Str) (y2 : Nat) :
    Except PErr (Option (PDate × PDate)) :=
  (fr_date_to_iso d1 m1 y1).bind fun ws =>
  (fr_date_to_iso d2 m2 y2).bind fun we =>
  .ok (some (ws, we))

/-- `_try_parse_week`: formats C, then B, then A. -/
def tryParseWeek (line : Str) : Except PErr (Option (PDate × PDate)) :=
  match searchAux matchWeekC line with
  | some (d1, m1, y1, d2, m2, y2) => frPair d1 m1 y1 d2 m2 y2
  | none =>
    match searchAux matchWeekB line with
    | some (d1, m1, d2, m2, y) => frPair d1 m1 y d2 m2 y
    | none =>
      match searchAux matchWeekA line with
      | some (d1, d2, mon, y) => frPair d1 mon y d2 mon y
      | none => .ok none

/-! ### Phone-likeness, phone stripping, and the line heuristics -/

/-- Separator class of `PHONE_LIKE_RE`: `[\s.-]` plus slash on the PDF path
(`slash = true`), `[\s.-]` without slash on the HTML path (`slash = false`). -/
def isPhoneGapSep (slash : Bool) (c : Char) : Bool :=
  isPySpace c || c = '.' || c = '-' || (slash && c = '/')

/-- Greedy repetition of `(?:[sep]?\d{2})`: number of groups matched and
characters consumed.  Each iteration is forced (an optional separator can
never be skipped when present, since the alternative starts with a digit),
so greedy maximal munch equals the backtracking result. -/
def phonePairs (slash : Bool) : Str → Nat × Nat
  | a :: b :: rest =>
    if a.isDigit then
      if b.isDigit then
        let p := phonePairs slash rest
        (p.1 + 1, p.2 + 2)
      else (0, 0)
    else if isPhoneGapSep slash a && b.isDigit then
      match rest with
      | c :: rest2 =>
        if c.isDigit then
          let p := phonePairs slash rest2
          (p.1 + 1, p.2 + 3)
        else (0, 0)
      | [] => (0, 0)
    else (0, 0)
  | _ => (0, 0)

/-- `PHONE_LIKE_RE` = `\d{2}(?:[sep]?\d{2}){3,}` anchored at the current
position: returns the length of the (greedy) match, if any. -/
def matchPhoneLen (slash : Bool) (s : Str) : Option Nat :=
  match s with
  | c1 :: c2 :: rest =>
    if c1.isDigit && c2.isDigit then
      let p := phonePairs slash rest
      if 3 ≤ p.1 then some (2 + p.2) else none
    else none
  | _ => none

/-- `PHONE_LIKE_RE.search(line)`. -/
def phoneLikeSearch (slash : Bool) : Str → Bool
  | [] => false
  | c :: rest => (matchPhoneLen slash (c :: rest)).isSome || phoneLikeSearch slash rest

/-- `PHONE_LIKE_RE.sub(" ", line)`: replace each non-overlapping leftmost
match by one space.  Fuel-driven scan; callers pass the length of the
string, which bounds the number of steps. -/
def phoneSubAux (slash : Bool) : Nat → Str → Str
  | _, [] => []
  | 0, s => s
  | fuel + 1, c :: rest =>
    match matchPhoneLen slash (c :: rest) with
    | some k => ' ' :: phoneSubAux slash fuel ((c :: rest).drop k)
    | none => c :: phoneSubAux slash fuel rest

def phoneSub (slash : Bool) (s : Str) : Str := phoneSubAux slash s.length s

/-- `re.sub(r"[\/|;,]\s*$", "", s)`: drop a final separator together with
any trailing whitespace. -/
def stripTrailSep : Str → Str
  | [] => []
  | c :: rest =>
    if isPhoneSplitSep c && rest.all (fun x => isPySpace x) then []
    else c :: stripTrailSep rest

/-- `re.sub(r"^\s*[\/|;,]", "", s)`: drop leading whitespace plus one
separator, when present. -/
def stripLeadSep (s : Str) : Str :=
  match s.dropWhile (fun c => isPySpace c) with
  | c :: rest => if isPhoneSplitSep c then rest else s
  | [] => s

/-- `\bTEL\s*[.:]\s*` anchored at the current position (the leading word
boundary is checked by the caller): length of the match. -/
def telMatchLen (s : Str) : Option Nat :=
  (litCI (S "TEL") s).bind fun rest =>
  let w1 := rest.takeWhile (fun c => isPySpace c)
  match rest.drop w1.length with
  | c :: rest2 =>
    if c = '.' ∨ c = ':' then
      some (3 + w1.length + 1 + (rest2.takeWhile (fun x => isPySpace x)).length)
    else none
  | [] => none

/-- `re.sub(r"\bTEL\s*[.:]\s*", " ", s, flags=re.IGNORECASE)`.  `prev` is
the character preceding the scan position (`none` at the start). -/
def telSubAux : Nat → Option Char → Str → Str
  | _, _, [] => []
  | 0, _, s => s
  | fuel + 1, prev, c :: rest =>
    if (match prev with | none => true | some p => !isWordChar p) then
      match telMatchLen (c :: rest) with
      | some k => ' ' :: telSubAux fuel (some ' ') ((c :: rest).drop k)
      | none => c :: telSubAux fuel (some c) rest
    else c :: telSubAux fuel (some c) rest

def telSub (s : Str) : Str := telSubAux s.length none s

/-- `strip_phones_from_line`. -/
def strip_phones_from_line (line : Str) : Str :=
  clean (telSub (stripLeadSep (stripTrailSep (phoneSub true line))))

/-- `_is_pure_digits_line`: `re.fullmatch` of the digits-spaces-separators class. -/
def isPureDigitsLine (s : Str) : Bool :=
  !s.isEmpty && s.all (fun c => c.isDigit || isPySpace c || c = '.' || c = '/' || c = '-')

def HEADER_PRES : List String :=
  ["UNION", "GARDE", "SEMAINE", "PERMANENCE", "SECTION", "TOUR", "TEL", "N°", "N  "]

def ADDRESS_KEYWORDS : List String :=
  ["ROUTE", "CARREFOUR", "AVENUE", "BD", "BOULEVARD", "FACE", "PRES", "PRÈS",
   "DERRIERE", "DERRIÈRE", "ARRÊT", "ARRET", "RUE", "LOT", "IMMEUBLE", "VILLA",
   "CITÉ", "CITE", "CAMP", "MARCHE", "STATION", "QUARTIER", "PLACE", "ROND",
   "ENTRE", "APRES", "APRÈS", "DEVANT"]

def isAddressKeyword (w : Str) : Bool := ADDRESS_KEYWORDS.any (fun k => k.data = w)

/-- `looks_like_area`. -/
def looks_like_area (line : Str) : Bool :=
  if line.isEmpty then false
  else
    let up := stripWs (line.map pyUpper)
    if HEADER_PRES.any (fun p => hasPre p.data up) then false
    else if containsStr (S "PHCIE") up || containsStr (S "PHARMACIE") up then false
    else if (runsAux (fun c => isAccUpper c) [] up).any (fun w => isAddressKeyword w) then false
    else if 50 < line.length then false
    else if isPureDigitsLine line then false
    else line = up

/-! ### Pharmacy-line matchers and name extraction -/

/-- `(.+)$` on a single line: nonempty remainder, `.` not crossing a
newline, `$` tolerating one final newline. -/
def dotPlusEnd (rest : Str) : Option Str :=
  if rest.isEmpty then none
  else
    let body := if rest.getLast? = some '\n' then rest.dropLast else rest
    if body.isEmpty || body.contains '\n' then none else some body

/-- `\s+(PHCIE|PHARMACIE)\s+(.+)$`: the completion attempted after the lazy
group of `CITY_PHARM_RE` (the two keyword alternatives have disjoint
prefixes, so alternation order is immaterial). -/
def cityCompl (s : Str) : Option Str :=
  (wsPlus s).bind fun s1 =>
  match litCI (S "PHCIE") s1 with
  | some r => (wsPlus r).bind fun r2 => dotPlusEnd r2
  | none =>
    match litCI (S "PHARMACIE") s1 with
    | some r => (wsPlus r).bind fun r2 => dotPlusEnd r2
    | none => none

/-- `[A-Z\s-]` under `re.IGNORECASE`. -/
def isCityClassChar (c : Char) : Bool :=
  ('A' ≤ c && c ≤ 'Z') || ('a' ≤ c && c ≤ 'z') || isPySpace c || c = '-'

/-- Lazy extension of group 1 of `CITY_PHARM_RE`: try to complete first
(shortest group wins), else move one class character into the group. -/
def cityPharmAux : Str → Str → Option (Str × Str)
  | g1rev, s =>
    match cityCompl s with
    | some rest => some (g1rev.reverse, rest)
    | none =>
      match s with
      | c :: cs => if isCityClassChar c then cityPharmAux (c :: g1rev) cs else none
      | [] => none

/-- `CITY_PHARM_RE.match(line)`:
`^([A-Z][A-Z\s-]{2,}?)\s+(PHCIE|PHARMACIE)\s+(.+)$` (ignore-case), returning
(group 1, group 3). -/
def cityPharmMatch (line : Str) : Option (Str × Str) :=
  match line with
  | c0 :: c1 :: c2 :: rest =>
    if (('A' ≤ c0 && c0 ≤ 'Z') || ('a' ≤ c0 && c0 ≤ 'z')) &&
        isCityClassChar c1 && isCityClassChar c2 then
      cityPharmAux [c2, c1, c0] rest
    else none
  | _ => none

/-- `PHARM_RE.match(line)`: `^(PHCIE|PHARMACIE)\s+(.+)$` (ignore-case),
returning group 2. -/
def pharmMatch (line : Str) : Option Str :=
  match litCI (S "PHCIE") line with
  | some r => (wsPlus r).bind fun r2 => dotPlusEnd r2
  | none =>
    match litCI (S "PHARMACIE") line with
    | some r => (wsPlus r).bind fun r2 => dotPlusEnd r2
    | none => none

/-- Does one of the four separator alternatives of `_extract_pharmacy_name`
match at this position?  (`\s*–\s*`, `\s+-\s*`, `\s*/\s*`, `\bTEL\b`;
`prev` is the preceding character, for the word boundary.) -/
def nameSepAt (prev : Option Char) (s : Str) : Bool :=
  (match s.dropWhile (fun c => isPySpace c) with
   | c :: _ => c = '–' || c = '/'
   | [] => false) ||
  (match s with
   | c :: _ =>
     isPySpace c &&
       (match s.dropWhile (fun x => isPySpace x) with
        | d :: _ => d = '-'
        | [] => false)
   | [] => false) ||
  ((match prev with | none => true | some p => !isWordChar p) &&
   (match litCI (S "TEL") s with
    | some r => (match r with | [] => true | c :: _ => !isWordChar c)
    | none => false))

/-- Prefix of `s` up to the leftmost separator match. -/
def nameUpToSep : Option Char → Str → Str
  | _, [] => []
  | prev, c :: rest =>
    if nameSepAt prev (c :: rest) then []
    else c :: nameUpToSep (some c) rest

/-- `_extract_pharmacy_name`. -/
def extract_pharmacy_name (rest : Str) : Str :=
  clean (stripWs (nameUpToSep none rest))

/-! ### The canonical payload and the PDF line classifier -/

structure Pharmacy where
  name_raw : String
  address_raw : String
  phones_raw : List String
deriving DecidableEq, Repr

structure Area where
  area : String
  pharmacies : List Pharmacy
deriving DecidableEq, Repr

structure Week where
  week_start : String
  week_end : String
  areas : List Area
deriving DecidableEq, Repr

structure PdfPayload where
  source : String
  source_url : String
  source_file : String
  scraped_at : String
  weeks : List Week
deriving DecidableEq, Repr

/-- The per-week classifier state: the week being built, the
normalized-label registry (`area_by_name`) mapping to indices into
`areas`, and the index of the current area.  In the Python code
`current_week` is always the last element of `weeks` and `current_area`
an alias into `current_week["areas"]`; indices make that aliasing
explicit. -/
structure CurWeek where
  week_start : String
  week_end : String
  areas : List Area
  registry : List (String × Nat)
  curArea : Option Nat
deriving DecidableEq, Repr

structure PState where
  doneWeeks : List Week
  cur : Option CurWeek
deriving DecidableEq, Repr

def regLookup (k : String) : List (String × Nat) → Option Nat
  | [] => none
  | (k2, i) :: rest => if k2 = k then some i else regLookup k rest

/-- In-place update of the element at an index (Python mutates the aliased
dict). -/
def listModify {α : Type} (f : α → α) : Nat → List α → List α
  | _, [] => []
  | 0, a :: as => f a :: as
  | n + 1, a :: as => a :: listModify f n as

/-- In-place update of the last element (`pharmacies[-1]`). -/
def modLast {α : Type} (f : α → α) : List α → List α
  | [] => []
  | [a] => [f a]
  | a :: b :: rest => a :: modLast f (b :: rest)

/-- `for ph in new: if ph not in cur: cur.append(ph)`. -/
def mergePhones (cur new : List String) : List String :=
  new.foldl (fun acc ph => if ph ∈ acc then acc else acc ++ [ph]) cur

/-- Fold text onto an address: `clean((addr + " " + extra).strip())`. -/
def addrFold (addr : String) (extra : Str) : String :=
  String.mk (clean (stripWs (addr.data ++ ' ' :: extra)))

/-- The continuation-line update applied to the last pharmacy of the
current area (lines 399–429 of `unppci_parse_pdf.py`). -/
def contUpdate (line : Str) (last : Pharmacy) : Pharmacy :=
  if phoneLikeSearch true line then
    let phones2 := mergePhones last.phones_raw ((extract_phones_pdf line).map String.mk)
    let addrPart := strip_phones_from_line line
    if !addrPart.isEmpty && !isPureDigitsLine addrPart then
      ⟨last.name_raw, addrFold last.address_raw addrPart, phones2⟩
    else ⟨last.name_raw, last.address_raw, phones2⟩
  else ⟨last.name_raw, addrFold last.address_raw line, last.phones_raw⟩

/-- Explicit-area rule (format « Abidjan », lines 337–348). -/
def areaStep (c : CurWeek) (line up : Str) : CurWeek :=
  let areaName := String.mk (stripWs up)
  match regLookup areaName c.registry with
  | some i => ⟨c.week_start, c.week_end, c.areas, c.registry, some i⟩
  | none =>
    ⟨c.week_start, c.week_end, c.areas ++ [⟨String.mk line, []⟩],
     c.registry ++ [(areaName, c.areas.length)], some c.areas.length⟩

/-- City-prefixed pharmacy rule (format « Intérieur », lines 350–381). -/
def cityStep (c : CurWeek) (city rest line : Str) : CurWeek :=
  let cityS := String.mk city
  let ph : Pharmacy :=
    ⟨String.mk (extract_pharmacy_name rest), "", (extract_phones_pdf line).map String.mk⟩
  match regLookup cityS c.registry with
  | some i =>
    ⟨c.week_start, c.week_end,
     listModify (fun a => ⟨a.area, a.pharmacies ++ [ph]⟩) i c.areas,
     c.registry, some i⟩
  | none =>
    ⟨c.week_start, c.week_end, c.areas ++ [⟨cityS, [ph]⟩],
     c.registry ++ [(cityS, c.areas.length)], some c.areas.length⟩

/-- Continuation rule (lines 399–429): only reached with a current area
whose pharmacy list is nonempty; attaches to the last entry. -/
def contStep (c : CurWeek) (line : Str) : CurWeek :=
  match c.curArea with
  | none => c
  | some i =>
    match c.areas.get? i with
    | none => c
    | some a =>
      if a.pharmacies.isEmpty then c
      else
        ⟨c.week_start, c.week_end,
         listModify (fun ar => ⟨ar.area, modLast (contUpdate line) ar.pharmacies⟩) i c.areas,
         c.registry, c.curArea⟩

/-- Plain-pharmacy rule (lines 383–397) falling through to the
continuation rule, as in the source. -/
def pharmOrCont (c : CurWeek) (line : Str) : CurWeek :=
  match pharmMatch line, c.curArea with
  | some rest, some i =>
    let ph : Pharmacy :=
      ⟨String.mk (extract_pharmacy_name rest), "", (extract_phones_pdf line).map String.mk⟩
    ⟨c.week_start, c.week_end,
     listModify (fun a => ⟨a.area, a.pharmacies ++ [ph]⟩) i c.areas,
     c.registry, some i⟩
  | _, _ => contStep c line

/-- City-prefix validity test (lines 358–361): no address keyword among
the city words, and at least three characters. -/
def cityOk (city : Str) : Bool :=
  !(pyWords city).any (fun w => isAddressKeyword w) && 3 ≤ city.length

/-- The classifier body for a non-week line under an open week
(lines 331–433): section skip, explicit area, city-prefixed pharmacy
(falling through when the city prefix is rejected), plain pharmacy,
continuation, noise. -/
def classifyLine (c : CurWeek) (line : Str) : CurWeek :=
  let up := line.map pyUpper
  if hasPre (S "SECTION") up || hasPre (S "PERMANENCE") up || hasPre (S "TOUR DE GARDE") up then c
  else if looks_like_area line then areaStep c line up
  else
    match cityPharmMatch line with
    | some (g1, rest) =>
      let city := (stripWs g1).map pyUpper
      if cityOk city then cityStep c city rest line
      else pharmOrCont c line
    | none => pharmOrCont c line

/-- Week-header handling (lines 309–324): repeated identical header keeps
the context, otherwise a fresh week is opened. -/
def weekStep (st : PState) (ws we : PDate) : PState :=
  let wsIso := isoDate ws
  let weIso := isoDate we
  match st.cur with
  | some c =>
    if c.week_start = wsIso ∧ c.week_end = weIso then st
    else ⟨st.doneWeeks ++ [⟨c.week_start, c.week_end, c.areas⟩], some ⟨wsIso, weIso, [], [], none⟩⟩
  | none => ⟨st.doneWeeks, some ⟨wsIso, weIso, [], [], none⟩⟩

/-- One (already cleaned) line of the PDF stream. -/
def processLine (st : PState) (line : Str) : Except PErr PState :=
  if line.isEmpty then .ok st
  else
    match tryParseWeek line with
    | .error e => .error e
    | .ok (some (ws, we)) => .ok (weekStep st ws we)
    | .ok none =>
      match st.cur with
      | none => .ok st
      | some c => .ok ⟨st.doneWeeks, some (classifyLine c line)⟩

def runLines : PState → List Str → Except PErr PState
  | st, [] => .ok st
  | st, l :: ls =>
    match processLine st l with
    | .error e => .error e
    | .ok st2 => runLines st2 ls

def finishWeeks (st : PState) : List Week :=
  st.doneWeeks ++
    (match st.cur with
     | none => []
     | some c => [⟨c.week_start, c.week_end, c.areas⟩])

/-- The cleaned line stream of the PDF (page structure is flattened, as
`parse_unppci_pdf` processes pages in order). -/
def pdfLines (pages : List (List String)) : List Str :=
  listJoin (pages.map (fun pg => pg.map (fun x => clean x.data)))

/-- `parse_unppci_pdf`: the input PDF is modelled as its per-page raw text
lines; `now` is the `datetime.now(timezone.utc).isoformat()` reading taken
at the start of the call. -/
def parse_unppci_pdf (pages : List (List String)) (sourceUrl fileName now : String) :
    Except PErr PdfPayload :=
  match runLines ⟨[], none⟩ (pdfLines pages) with
  | .error e => .error e
  | .ok st => .ok ⟨"unppci", sourceUrl, fileName, now, finishWeeks st⟩

/-! ### HTML path (`annuaireci_scrape.py`)

The BeautifulSoup document is modelled as a flat sequence of sibling
elements, each a tag name plus its text content; `find_next` is then the
next list element of an allowed tag, and `find_next_sibling` the next
list element. -/

structure HNode where
  name : String
  text : String
deriving DecidableEq, Repr

structure HtmlPayload where
  source : String
  source_url : String
  week_start : String
  week_end : String
  areas : List Area
  scraped_at : String
deriving DecidableEq, Repr

def annuaireURL : String := "https://annuaireci.com/pharmacies-de-garde/"

def HEADING_TAGS : List String := ["h2", "h3", "h4"]

def CONTENT_TAGS : List String :=
  ["p", "div", "span", "li", "ul", "ol", "address", "strong", "em", "a"]

def STOP_TITLES : List String :=
  ["Urgence", "Horaires", "Localisation", "Rechercher une pharmacie",
   "Questions fréquentes"]

def isHeadingTag (s : String) : Bool := HEADING_TAGS.any (fun t => t = s)

def isTargetTag (s : String) : Bool :=
  HEADING_TAGS.any (fun t => t = s) || CONTENT_TAGS.any (fun t => t = s)

/-- `(\d{2}/\d{2}/\d{4})`. -/
def dateDMY (s : Str) : Option ((Nat × Nat × Nat) × Str) :=
  match s with
  | a :: b :: s1 :: c :: d :: s2 :: e :: f :: g :: h :: rest =>
    if a.isDigit && b.isDigit && s1 = '/' && c.isDigit && d.isDigit && s2 = '/' &&
        e.isDigit && f.isDigit && g.isDigit && h.isDigit then
      some ((10 * digitVal a + digitVal b, 10 * digitVal c + digitVal d,
             1000 * digitVal e + 100 * digitVal f + 10 * digitVal g + digitVal h), rest)
    else none
  | _ => none

/-- `WEEK_RE` of the HTML path, anchored:
`Semaine\s+du\s+(date)\s+au\s+(date)` (ignore-case). -/
def matchWeekHtml (s : Str) : Option ((Nat × Nat × Nat) × (Nat × Nat × Nat)) :=
  (litCI (S "Semaine") s).bind fun s0 =>
  (wsPlus s0).bind fun s1 =>
  (litCI (S "du") s1).bind fun s2 =>
  (wsPlus s2).bind fun s3 =>
  (dateDMY s3).bind fun p1 =>
  (wsPlus p1.2).bind fun s4 =>
  (litCI (S "au") s4).bind fun s5 =>
  (wsPlus s5).bind fun s6 =>
  (dateDMY s6).bind fun p2 =>
  some (p1.1, p2.1)

/-- `dateutil.parser.parse(txt, dayfirst=True).date()` on a `DD/MM/YYYY`
token: day-first resolution, `ValueError` on an invalid calendar date. -/
def dtparseDayfirst (t : Nat × Nat × Nat) : Except PErr PDate :=
  match mkDate t.2.2 t.2.1 t.1 with
  | .ok dt => .ok dt
  | .error _ => .error (.valueError "dateutil could not resolve the date")

def weekErrMsg : String :=
  "Impossible de trouver la période (Semaine du ... au ...) sur la page."

/-- `parse_week_range`: scan every `h2`/`h3` heading for the week pattern;
raise `ScrapingStructureError` when none matches. -/
def findWeekRange : List HNode → Except PErr (PDate × PDate)
  | [] => .error (.structural weekErrMsg)
  | n :: rest =>
    if n.name = "h2" ∨ n.name = "h3" then
      match searchAux matchWeekHtml (unwords (pyWords n.text.data)) with
      | some (t1, t2) =>
        (dtparseDayfirst t1).bind fun a =>
        (dtparseDayfirst t2).bind fun b =>
        .ok (a, b)
      | none => findWeekRange rest
    else findWeekRange rest

def anchorPhrase : String := "Liste des pharmacies de garde"

/-- Find the anchor heading; return the nodes after it. -/
def findAnchorTail : List HNode → Option (List HNode)
  | [] => none
  | n :: rest =>
    if (n.name = "h2" ∨ n.name = "h3") &&
        containsStr anchorPhrase.data (stripWs n.text.data) then some rest
    else findAnchorTail rest

/-- Primary strategy of `_collect_pharmacy_details`: walk following
siblings up to the next heading, splitting non-empty text blocks into
phone-bearing text and address lines. -/
def collectPrimary : List Str → Str → List HNode → List Str × Str
  | addrRev, phone, [] => (addrRev.reverse, phone)
  | addrRev, phone, n :: rest =>
    if isHeadingTag n.name then (addrRev.reverse, phone)
    else
      let txt := clean_text n.text.data
      if txt.isEmpty then collectPrimary addrRev phone rest
      else if phoneLikeSearch false txt then collectPrimary addrRev (phone ++ ' ' :: txt) rest
      else collectPrimary (txt :: addrRev) phone rest

/-- Fallback strategy: forward scan restricted to the content/heading
allow-list, stopping at the next heading, deduplicating exact text
blocks. -/
def collectFallback : List Str → List Str → Str → List HNode → List Str × Str
  | _, addrRev, phone, [] => (addrRev.reverse, phone)
  | seen, addrRev, phone, n :: rest =>
    if !(CONTENT_TAGS.any (fun t => t = n.name) || isHeadingTag n.name) then
      collectFallback seen addrRev phone rest
    else if isHeadingTag n.name then (addrRev.reverse, phone)
    else
      let txt := clean_text n.text.data
      if txt.isEmpty || txt ∈ seen then collectFallback seen addrRev phone rest
      else if phoneLikeSearch false txt then
        collectFallback (txt :: seen) addrRev (phone ++ ' ' :: txt) rest
      else collectFallback (txt :: seen) (txt :: addrRev) phone rest

/-- `_collect_pharmacy_details`. -/
def collectDetails (rest : List HNode) : List Str × Str :=
  let p := collectPrimary [] [] rest
  if p.1.isEmpty && p.2.isEmpty then collectFallback [] [] [] rest else p

/-- One `h4` pharmacy record (lines 339–352). -/
def mkPharmHtml (n : HNode) (rest : List HNode) : Pharmacy :=
  let d := collectDetails rest
  let phones := (extract_phones_html d.2).map String.mk
  let address := if d.1.isEmpty then "" else String.mk (clean_text (unwords d.1))
  ⟨String.mk (clean_text n.text.data), address, phones⟩

/-- The traversal loop of `parse_annuaireci` (lines 321–355), starting
just after the anchor; `areasRev` holds the areas built so far, most
recent first (the Python `current_area_obj` is always the most recent). -/
def htmlLoop : List HNode → List Area → List Area
  | [], areasRev => areasRev.reverse
  | n :: rest, areasRev =>
    if !isTargetTag n.name then htmlLoop rest areasRev
    else if (n.name = "h2" ∨ n.name = "h3") &&
        STOP_TITLES.any (fun t => t = String.mk (clean_text n.text.data)) then
      areasRev.reverse
    else if n.name = "h3" then
      htmlLoop rest (⟨String.mk (clean_text n.text.data), []⟩ :: areasRev)
    else if n.name = "h4" then
      match areasRev with
      | [] => htmlLoop rest []
      | a :: others =>
        htmlLoop rest (⟨a.area, a.pharmacies ++ [mkPharmHtml n rest]⟩ :: others)
    else htmlLoop rest areasRev

/-- `parse_annuaireci`; `today` is the `date.today().isoformat()` reading. -/
def parse_annuaireci (doc : List HNode) (today : String) : Except PErr HtmlPayload :=
  match findWeekRange doc with
  | .error e => .error e
  | .ok (ws, we) =>
    match findAnchorTail doc with
    | none => .error (.structural "Ancre 'Liste des pharmacies de garde' introuvable.")
    | some tl =>
      .ok ⟨"annuaireci", annuaireURL, isoDate ws, isoDate we, htmlLoop tl [], today⟩

/-! ### Spec-modelled reference phone extractor (claim C1) -/

/-- Modelled from the spec: greedy chunking of an over-long digit run —
take 10-digit blocks from the front while at least 10 digits remain, take
one final 8-digit block when exactly 8 remain, discard any shorter
leftover. -/
def specChunk (ds : Str) : List Str :=
  if _h : 10 ≤ ds.length then ds.take 10 :: specChunk (ds.drop 10)
  else if ds.length = 8 then [ds]
  else []
termination_by ds.length
decreasing_by simp only [List.length_drop]; omega

/-- Modelled from the spec: a fragment reduced to its digits is accepted
verbatim at exactly 8 or 10 digits, chunked when longer than 10 (on the
path that chunks), and discarded otherwise. -/
def specFrag (chunkLong : Bool) (p : Str) : List Str :=
  let digits := p.filter Char.isDigit
  if digits.length = 8 ∨ digits.length = 10 then [digits]
  else if chunkLong = true ∧ 10 < digits.length then specChunk digits
  else []

/-- Modelled from the spec: deduplication keeping the first occurrence in
order. -/
def specDedupe : List Str → List Str
  | [] => []
  | x :: xs => x :: specDedupe (xs.filter (fun y => y ≠ x))
termination_by l => l.length
decreasing_by exact Nat.lt_succ_of_le (List.length_filter_le _ _)

/-- Modelled from the spec (claim C1): split on the four separators,
reduce each fragment to digits, apply the acceptance policy, deduplicate. -/
def phonesSpec (chunkLong : Bool) (t : Str) : List Str :=
  specDedupe (listJoin ((splitSeps t).map (specFrag chunkLong)))

lemma isPySpace_isDigit {c : Char} (h : isPySpace c = true) : c.isDigit = false := by
  simp only [isPySpace, Bool.or_eq_true, decide_eq_true_eq] at h
  obtain ((((((h | h) | h) | h) | h) | h) | h) := h <;> subst h <;> decide

lemma filter_digit_replNbsp (p : Str) :
    (p.map replNbsp).filter Char.isDigit = p.filter Char.isDigit := by
  have h1 : (' ' : Char).isDigit = false := by decide
  have h2 : ('\u00A0' : Char).isDigit = false := by decide
  induction p with
  | nil => rfl
  | cons c cs ih =>
    by_cases hc : c = '\u00A0'
    · subst hc
      show List.filter Char.isDigit (' ' :: _) = _
      rw [List.filter_cons, List.filter_cons, ih, h1, h2]
      simp
    · show List.filter Char.isDigit (replNbsp c :: _) = _
      rw [show replNbsp c = c from by simp [replNbsp, hc]]
      rw [List.filter_cons, List.filter_cons, ih]

lemma filter_digit_unwords_cons (w : Str) (L : List Str) :
    (unwords (w :: L)).filter Char.isDigit =
      w.filter Char.isDigit ++ (unwords L).filter Char.isDigit := by
  cases L with
  | nil => simp [unwords]
  | cons v ws =>
    show ((w ++ ' ' :: unwords (v :: ws)).filter Char.isDigit) = _
    rw [List.filter_append, List.filter_cons]
    norm_num
    decide

lemma filter_digit_runs (s : Str) : ∀ cur : Str,
    (unwords (runsAux (fun c => !isPySpace c) cur s)).filter Char.isDigit =
      cur.reverse.filter Char.isDigit ++ s.filter Char.isDigit := by
  induction s with
  | nil =>
    intro cur
    cases cur with
    | nil => simp [runsAux, unwords]
    | cons a as => simp [runsAux, unwords]
  | cons c cs ih =>
    intro cur
    by_cases hc : isPySpace c
    · have hd : c.isDigit = false := isPySpace_isDigit hc
      cases cur with
      | nil =>
        simp only [runsAux, hc, Bool.not_true, Bool.false_eq_true, if_false,
          List.isEmpty_nil, if_true, ih [], List.filter_cons, hd]
      | cons a as =>
        simp only [runsAux, hc, Bool.not_true, Bool.false_eq_true, if_false,
          List.isEmpty_cons, if_false]
        rw [filter_digit_unwords_cons, ih []]
        simp [List.filter_cons, hd]
    · have hq : (!isPySpace c) = true := by simp [hc]
      simp only [runsAux, hq, if_true, ih (c :: cur)]
      rw [List.reverse_cons, List.filter_append]
      by_cases hd : c.isDigit <;> simp [List.filter_cons, hd]

lemma filter_digit_dropWhile (s : Str) :
    (s.dropWhile (fun c => isPySpace c)).filter Char.isDigit = s.filter Char.isDigit := by
  induction s with
  | nil => rfl
  | cons c cs ih =>
    rw [List.dropWhile_cons]
    by_cases hc : isPySpace c
    · rw [if_pos (by simpa using hc), ih, List.filter_cons,
        if_neg (by simp [isPySpace_isDigit hc])]
    · rw [if_neg (by simpa using hc)]

lemma filter_digit_stripWs (s : Str) :
    (stripWs s).filter Char.isDigit = s.filter Char.isDigit := by
  show ((((s.dropWhile _).reverse.dropWhile _).reverse).filter Char.isDigit) = _
  rw [List.filter_reverse, filter_digit_dropWhile, List.filter_reverse,
    List.reverse_reverse, filter_digit_dropWhile]

lemma filter_digit_clean_text (p : Str) :
    (clean_text p).filter Char.isDigit = p.filter Char.isDigit := by
  show (stripWs (unwords (pyWords (p.map replNbsp)))).filter Char.isDigit = _
  rw [filter_digit_stripWs]
  show (unwords (runsAux _ [] _)).filter Char.isDigit = _
  rw [filter_digit_runs, filter_digit_replNbsp]
  rfl

lemma splitLongNumber_spec (fuel : Nat) : ∀ ds : Str, ds.length ≤ fuel →
    splitLongNumber fuel ds = specChunk ds := by
  induction fuel with
  | zero =>
    intro ds h
    have : ds = [] := List.length_eq_zero.mp (Nat.le_zero.mp h)
    subst this
    rw [specChunk]
    simp [splitLongNumber]
  | succ n ih =>
    intro ds h
    rw [specChunk]
    by_cases h10 : 10 ≤ ds.length
    · rw [show splitLongNumber (n + 1) ds = ds.take 10 :: splitLongNumber n (ds.drop 10)
        from by simp [splitLongNumber, h10]]
      rw [dif_pos h10, ih (ds.drop 10) (by simp [List.length_drop]; omega)]
    · rw [dif_neg h10]
      by_cases h8 : ds.length = 8
      · simp [splitLongNumber, h10, h8]
      · simp [splitLongNumber, h10, h8]

lemma htmlFragPhones_spec (p : Str) : htmlFragPhones p = specFrag true p := by
  unfold htmlFragPhones specFrag
  by_cases hempty : (clean_text p).isEmpty
  · have hp : p.filter Char.isDigit = [] := by
      rw [← filter_digit_clean_text, List.isEmpty_iff.mp hempty]
      rfl
    simp only [hempty, if_true, hp]
    norm_num
  · simp only [hempty, if_false, filter_digit_clean_text p]
    by_cases h810 : (p.filter Char.isDigit).length = 8 ∨ (p.filter Char.isDigit).length = 10
    · simp [h810]
    · simp only [h810, if_false]
      by_cases hlong : 10 < (p.filter Char.isDigit).length
      · simp only [hlong, if_true, and_true, if_pos (And.intro rfl hlong)]
        exact splitLongNumber_spec _ _ (Nat.le_refl _)
      · simp [hlong]

lemma pdfFilterMap_spec (xs : List Str) :
    xs.filterMap (fun p =>
      let digits := p.filter Char.isDigit
      if digits.length = 8 ∨ digits.length = 10 then some digits else none) =
    listJoin (xs.map (specFrag false)) := by
  induction xs with
  | nil => rfl
  | cons x xs ih =>
    by_cases h : (x.filter Char.isDigit).length = 8 ∨ (x.filter Char.isDigit).length = 10
    · simp only [List.filterMap_cons, h, if_pos h, List.map_cons, listJoin, ih, specFrag]
      simp [h]
    · simp only [List.filterMap_cons, h, if_neg h, List.map_cons, listJoin, ih, specFrag]
      simp [h]

lemma dedupeFirstAux_spec (xs : List Str) : ∀ seen : List Str,
    dedupeFirstAux seen xs = specDedupe (xs.filter (fun y => y ∉ seen)) := by
  induction xs with
  | nil => intro seen; simp [dedupeFirstAux, specDedupe]
  | cons x xs ih =>
    intro seen
    by_cases hx : x ∈ seen
    · rw [show dedupeFirstAux seen (x :: xs) = dedupeFirstAux seen xs
        from by simp [dedupeFirstAux, hx]]
      rw [ih seen, List.filter_cons, if_neg (by simp [hx])]
    · rw [show dedupeFirstAux seen (x :: xs) = x :: dedupeFirstAux (x :: seen) xs
        from by simp [dedupeFirstAux, hx]]
      rw [ih (x :: seen), List.filter_cons, if_pos (by simp [hx])]
      rw [specDedupe, List.filter_filter]
      congr 1
      apply congrArg specDedupe
      apply List.filter_congr
      intro y _
      by_cases hy : y = x
      · subst hy; simp
      · by_cases hys : y ∈ seen <;> simp [hy, hys]

lemma filter_not_mem_nil (l : List Str) :
    l.filter (fun y => y ∉ ([] : List Str)) = l := by
  have h : ∀ x ∈ l, (decide (x ∉ ([] : List Str))) = (fun _ : Str => true) x := by simp
  rw [List.filter_congr h, List.filter_true]

/-- Claim C1 counterexample: an 18-digit unseparated fragment.  The claim
asserts that the extractor used by both paths chunks it into a 10-digit
block followed by an 8-digit block; the PDF-path extractor instead
discards it entirely, while the HTML-path extractor does chunk it. -/
theorem C1_counterexample :
    extract_phones_pdf (S "076935390901234567") = [] ∧
    extract_phones_html (S "076935390901234567") = [S "0769353909", S "01234567"] ∧
    ([] : List Str) ≠ [S "0769353909", S "01234567"] := by
  refine ⟨by decide, by decide, by decide⟩

/-- Claim C1 (amended): for every input text, the HTML-path extractor
implements the claimed split / digit-strip / 8-or-10 verbatim / greedy
10-then-8 chunking / first-occurrence deduplication policy, while the
PDF-path extractor implements the same policy with no chunking (fragments
not reducing to exactly 8 or 10 digits are discarded). -/
theorem C1_amended (t : Str) :
    extract_phones_html t = phonesSpec true t ∧
    extract_phones_pdf t = phonesSpec false t := by
  constructor
  · show dedupeFirstAux [] (listJoin ((splitSeps t).map htmlFragPhones)) = _
    rw [dedupeFirstAux_spec, filter_not_mem_nil]
    unfold phonesSpec
    exact congrArg specDedupe (congrArg listJoin
      (List.map_congr_left (fun p _ => htmlFragPhones_spec p)))
  · show dedupeFirstAux [] ((splitSeps t).filterMap _) = _
    rw [dedupeFirstAux_spec, filter_not_mem_nil, pdfFilterMap_spec]
    rfl

instance {ε α : Type} [DecidableEq ε] [DecidableEq α] : DecidableEq (Except ε α) :=
  fun x y =>
    match x, y with
    | .ok a, .ok b =>
      if h : a = b then isTrue (by rw [h])
      else isFalse (by intro hh; injection hh; contradiction)
    | .error a, .error b =>
      if h : a = b then isTrue (by rw [h])
      else isFalse (by intro hh; injection hh; contradiction)
    | .ok _, .error _ => isFalse (by intro hh; cases hh)
    | .error _, .ok _ => isFalse (by intro hh; cases hh)

/-- The scraped-at-independent part of a PDF payload. -/
def pdfStrip (p : PdfPayload) : String × String × String × List Week :=
  (p.source, p.source_url, p.source_file, p.weeks)

/-- The scraped-at-independent part of an HTML payload. -/
def htmlStrip (p : HtmlPayload) : String × String × String × String × List Area :=
  (p.source, p.source_url, p.week_start, p.week_end, p.areas)

/-- Claim C3 counterexample: both parsers embed the ambient clock reading
(`datetime.now` / `date.today`) in the returned payload (`scraped_at`), so
two runs on identical input at different instants are not byte-identical. -/
theorem C3_counterexample :
    parse_unppci_pdf [["SEMAINE DU SAMEDI 07 AU VENDREDI 13 FEVRIER 2026"]] "" "g.pdf"
        "2026-02-07T00:00:00+00:00" ≠
      parse_unppci_pdf [["SEMAINE DU SAMEDI 07 AU VENDREDI 13 FEVRIER 2026"]] "" "g.pdf"
        "2026-02-07T00:05:00+00:00" ∧
    parse_annuaireci [⟨"h2", "Semaine du 07/02/2026 au 13/02/2026"⟩,
        ⟨"h3", "Liste des pharmacies de garde"⟩] "2026-02-07" ≠
      parse_annuaireci [⟨"h2", "Semaine du 07/02/2026 au 13/02/2026"⟩,
        ⟨"h3", "Liste des pharmacies de garde"⟩] "2026-02-08" := by
  exact ⟨by decide, by decide⟩

/-- Claim C3 (amended): apart from the `scraped_at` timestamp, the output
of either parser is a pure function of the input document and arguments —
two runs on identical input agree on every other field. -/
theorem C3_amended (pages : List (List String)) (u f t1 t2 : String)
    (doc : List HNode) (t3 t4 : String) :
    (parse_unppci_pdf pages u f t1).map pdfStrip =
      (parse_unppci_pdf pages u f t2).map pdfStrip ∧
    (parse_annuaireci doc t3).map htmlStrip =
      (parse_annuaireci doc t4).map htmlStrip := by
  constructor
  · unfold parse_unppci_pdf
    cases runLines ⟨[], none⟩ (pdfLines pages) <;> rfl
  · unfold parse_annuaireci
    cases findWeekRange doc with
    | error e => rfl
    | ok ws =>
      cases findAnchorTail doc <;> rfl

lemma runLines_no_week (lines : List Str)
    (h : ∀ l ∈ lines, tryParseWeek l = .ok none) :
    runLines ⟨[], none⟩ lines = .ok ⟨[], none⟩ := by
  induction lines with
  | nil => rfl
  | cons l ls ih =>
    have hstep : processLine ⟨[], none⟩ l = .ok ⟨[], none⟩ := by
      by_cases he : l.isEmpty
      · simp [processLine, he]
      · simp [processLine, he, h l (by simp)]
    rw [show runLines ⟨[], none⟩ (l :: ls) =
        (match processLine ⟨[], none⟩ l with
         | .error e => .error e
         | .ok st2 => runLines st2 ls) from rfl, hstep]
    exact ih (fun x hx => h x (by simp [hx]))

lemma findWeekRange_none (doc : List HNode)
    (h : ∀ n ∈ doc, (n.name = "h2" ∨ n.name = "h3") →
      searchAux matchWeekHtml (unwords (pyWords n.text.data)) = none) :
    findWeekRange doc = .error (.structural weekErrMsg) := by
  induction doc with
  | nil => rfl
  | cons n rest ih =>
    by_cases hn : n.name = "h2" ∨ n.name = "h3"
    · simp only [findWeekRange, if_pos hn, h n (by simp) hn]
      exact ih (fun x hx => h x (by simp [hx]))
    · simp only [findWeekRange, if_neg hn]
      exact ih (fun x hx => h x (by simp [hx]))

/-- Claim C7: when no line or heading ever matches a week-date header, the
PDF parse returns an empty period list without error, while the HTML parse
raises the structural error (and hence returns no payload at all). -/
theorem C7_no_header :
    (∀ pages u f t, (∀ l ∈ pdfLines pages, tryParseWeek l = .ok none) →
      parse_unppci_pdf pages u f t = .ok ⟨"unppci", u, f, t, []⟩) ∧
    (∀ doc t, (∀ n ∈ doc, (n.name = "h2" ∨ n.name = "h3") →
        searchAux matchWeekHtml (unwords (pyWords n.text.data)) = none) →
      parse_annuaireci doc t = .error (.structural weekErrMsg)) := by
  constructor
  · intro pages u f t h
    unfold parse_unppci_pdf
    rw [runLines_no_week (pdfLines pages) h]
    rfl
  · intro doc t h
    unfold parse_annuaireci
    rw [findWeekRange_none doc h]

/-- Witness for C7 on concrete header-free documents. -/
theorem C7_no_header_witness :
    parse_unppci_pdf [["bonjour tout le monde", "PHCIE DES LAGUNES"]] "u" "f" "t" =
      .ok ⟨"unppci", "u", "f", "t", []⟩ ∧
    parse_annuaireci [⟨"p", "bonjour"⟩, ⟨"h2", "Pharmacies de garde"⟩] "t" =
      .error (.structural weekErrMsg) :=
  ⟨C7_no_header.1 _ "u" "f" "t" (by decide),
   C7_no_header.2 [⟨"p", "bonjour"⟩, ⟨"h2", "Pharmacies de garde"⟩] "t" (by decide)⟩

/-- Claim C8: the date-range parser tries the most specific layout first,
so whenever the two-full-dates format C matches (in particular on a line
whose tokens also satisfy the shared-month format A), the result is the
format-C reading of the two independent date triples. -/
theorem C8_precedence (line : Str) (d1 : Nat) (m1 : Str) (y1 d2 : Nat) (m2 : Str) (y2 : Nat)
    (hA : (searchAux matchWeekA line).isSome = true)
    (hC : searchAux matchWeekC line = some (d1, m1, y1, d2, m2, y2)) :
    tryParseWeek line = frPair d1 m1 y1 d2 m2 y2 := by
  unfold tryParseWeek
  rw [hC]

/-- Witness for C8: a line matched by both format C (at its head) and
format A (later in the line); the parse resolves it as format C. -/
theorem C8_precedence_witness :
    tryParseWeek
        (S "SEMAINE DU 01 MARS 2019 AU 02 MARS 2019 ET SEMAINE DU 03 AU 04 AVRIL 2020") =
      .ok (some (⟨2019, 3, 1⟩, ⟨2019, 3, 2⟩)) := by
  rw [C8_precedence
    (S "SEMAINE DU 01 MARS 2019 AU 02 MARS 2019 ET SEMAINE DU 03 AU 04 AVRIL 2020")
    1 (S "MARS") 2019 2 (S "MARS") 2019 (by decide) (by decide)]
  decide

lemma mkDate_ok {y m d : Nat} {dt : PDate} (h : mkDate y m d = .ok dt) :
    dt = ⟨y, m, d⟩ := by
  unfold mkDate at h
  split at h
  · injection h with h2
    exact h2.symm
  · cases h

lemma fr_date_to_iso_ok {d : Nat} {mon : Str} {y : Nat} {dt : PDate}
    (h : fr_date_to_iso d mon y = .ok dt) :
    ∃ m, monthNum mon = some m ∧ dt = ⟨y, m, d⟩ := by
  unfold fr_date_to_iso at h
  cases hm : monthNum mon with
  | none => rw [hm] at h; cases h
  | some m => rw [hm] at h; exact ⟨m, rfl, mkDate_ok h⟩

lemma frPair_ok {d1 : Nat} {m1 : Str} {y1 d2 : Nat} {m2 : Str} {y2 : Nat}
    {s e : PDate} (h : frPair d1 m1 y1 d2 m2 y2 = .ok (some (s, e))) :
    (∃ m, monthNum m1 = some m ∧ s = ⟨y1, m, d1⟩) ∧
    (∃ m, monthNum m2 = some m ∧ e = ⟨y2, m, d2⟩) := by
  unfold frPair at h
  cases h1 : fr_date_to_iso d1 m1 y1 with
  | error e1 => rw [h1] at h; cases h
  | ok ws =>
    rw [h1] at h
    cases h2 : fr_date_to_iso d2 m2 y2 with
    | error e2 => rw [h2] at h; cases h
    | ok we =>
      rw [h2] at h
      injection h with h3
      injection h3 with h4
      injection h4 with hs he
      subst hs
      subst he
      exact ⟨fr_date_to_iso_ok h1, fr_date_to_iso_ok h2⟩

/-- Claim C4 counterexample: a header whose day numbers are reversed is
accepted by the date-range parser and resolves to a start date strictly
after the end date — no ordering check exists. -/
theorem C4_counterexample :
    tryParseWeek (S "SEMAINE DU SAMEDI 13 AU VENDREDI 07 FEVRIER 2026") =
      .ok (some (⟨2026, 2, 13⟩, ⟨2026, 2, 7⟩)) ∧
    dateLe ⟨2026, 2, 13⟩ ⟨2026, 2, 7⟩ = false := by
  exact ⟨by decide, by decide⟩

/-- Claim C4 (amended): the parser mirrors the header verbatim and applies
no ordering check; for an accepted shared-month (format A) header, start ≤
end holds exactly when the first day number is at most the second, and for
an accepted shared-year (format B) header exactly when the (month, day)
pairs are in order. -/
theorem C4_amended :
    (∀ line d1 d2 mon y s e,
      searchAux matchWeekC line = none →
      searchAux matchWeekB line = none →
      searchAux matchWeekA line = some (d1, d2, mon, y) →
      tryParseWeek line = .ok (some (s, e)) →
      (dateLe s e = true ↔ d1 ≤ d2)) ∧
    (∀ line d1 m1 d2 m2 y s e,
      searchAux matchWeekC line = none →
      searchAux matchWeekB line = some (d1, m1, d2, m2, y) →
      tryParseWeek line = .ok (some (s, e)) →
      (s.y = e.y ∧
        (dateLe s e = true ↔ (s.m < e.m ∨ (s.m = e.m ∧ s.d ≤ e.d))))) := by
  constructor
  · intro line d1 d2 mon y s e hC hB hA hok
    unfold tryParseWeek at hok
    simp only [hC, hB, hA] at hok
    obtain ⟨⟨m, hm, hs⟩, ⟨m2, hm2, he⟩⟩ := frPair_ok hok
    rw [hm] at hm2
    injection hm2 with hmeq
    subst hmeq
    subst hs
    subst he
    simp [dateLe]
  · intro line d1 m1 d2 m2 y s e hC hB hok
    unfold tryParseWeek at hok
    simp only [hC, hB] at hok
    obtain ⟨⟨ma, hma, hs⟩, ⟨mb, hmb, he⟩⟩ := frPair_ok hok
    subst hs
    subst he
    refine ⟨rfl, ?_⟩
    by_cases hmm : ma = mb
    · subst hmm
      simp [dateLe]
    · have hx : dateLe ⟨y, ma, d1⟩ ⟨y, mb, d2⟩ = decide (ma ≤ mb) := by
        unfold dateLe
        simp [hmm]
      rw [hx]
      simp only [decide_eq_true_eq]
      show ma ≤ mb ↔ (ma < mb ∨ (ma = mb ∧ d1 ≤ d2))
      omega

/-- Witness for C4 (amended) at two concrete reversed headers. -/
theorem C4_amended_witness :
    (dateLe ⟨2026, 2, 13⟩ ⟨2026, 2, 7⟩ = true ↔ 13 ≤ 7) ∧
    ((2026 : Nat) = 2026 ∧
      (dateLe ⟨2026, 3, 6⟩ ⟨2026, 2, 28⟩ = true ↔ (3 < 2 ∨ (3 = 2 ∧ 6 ≤ 28)))) :=
  ⟨C4_amended.1 (S "SEMAINE DU SAMEDI 13 AU VENDREDI 07 FEVRIER 2026")
      13 7 (S "FEVRIER") 2026 ⟨2026, 2, 13⟩ ⟨2026, 2, 7⟩
      (by decide) (by decide) (by decide) (by decide),
   C4_amended.2 (S "SEMAINE DU VENDREDI 06 MARS AU SAMEDI 28 FEVRIER 2026")
      6 (S "MARS") 28 (S "FEVRIER") 2026 ⟨2026, 3, 6⟩ ⟨2026, 2, 28⟩
      (by decide) (by decide) (by decide)⟩

lemma processLine_ok (st : PState) (l : Str) (h : (tryParseWeek l).isOk = true) :
    ∃ st2, processLine st l = .ok st2 := by
  unfold processLine
  by_cases he : l.isEmpty
  · exact ⟨st, by simp [he]⟩
  · cases htry : tryParseWeek l with
    | error e => rw [htry] at h; cases h
    | ok w =>
      cases w with
      | some p =>
        exact ⟨weekStep st p.1 p.2, by simp [he, htry]⟩
      | none =>
        cases hcur : st.cur with
        | none => exact ⟨st, by simp [he, htry, hcur]⟩
        | some c =>
          exact ⟨⟨st.doneWeeks, some (classifyLine c l)⟩, by simp [he, htry, hcur]⟩

lemma runLines_ok (lines : List Str) : ∀ st : PState,
    (∀ l ∈ lines, (tryParseWeek l).isOk = true) →
    ∃ st2, runLines st lines = .ok st2 := by
  induction lines with
  | nil => intro st _; exact ⟨st, rfl⟩
  | cons l ls ih =>
    intro st h
    obtain ⟨st2, hst2⟩ := processLine_ok st l (h l (by simp))
    obtain ⟨st3, hst3⟩ := ih st2 (fun x hx => h x (by simp [hx]))
    exact ⟨st3, by
      rw [show runLines st (l :: ls) =
          (match processLine st l with
           | .error e => .error e
           | .ok s2 => runLines s2 ls) from rfl, hst2]
      exact hst3⟩

lemma fr_date_to_iso_err {d : Nat} {mon : Str} {y : Nat} {e : PErr}
    (h : fr_date_to_iso d mon y = .error e) :
    (∃ nm, e = .unknownMonth nm) ∨ ∃ a b c, e = .badDate a b c := by
  unfold fr_date_to_iso at h
  cases hm : monthNum mon with
  | none =>
    simp only [hm] at h
    injection h with h2
    exact Or.inl ⟨_, h2.symm⟩
  | some m =>
    simp only [hm] at h
    unfold mkDate at h
    split at h
    · cases h
    · injection h with h2
      exact Or.inr ⟨y, m, d, h2.symm⟩

lemma frPair_err {d1 : Nat} {m1 : Str} {y1 d2 : Nat} {m2 : Str} {y2 : Nat} {e : PErr}
    (h : frPair d1 m1 y1 d2 m2 y2 = .error e) :
    (∃ nm, e = .unknownMonth nm) ∨ ∃ a b c, e = .badDate a b c := by
  unfold frPair at h
  cases h1 : fr_date_to_iso d1 m1 y1 with
  | error e1 =>
    rw [h1] at h
    injection h with h2
    exact h2 ▸ fr_date_to_iso_err h1
  | ok ws =>
    rw [h1] at h
    cases h2 : fr_date_to_iso d2 m2 y2 with
    | error e2 =>
      rw [h2] at h
      injection h with h3
      exact h3 ▸ fr_date_to_iso_err h2
    | ok we =>
      rw [h2] at h
      cases h

/-- Claim C5 counterexample: a date-shaped line with a *recognized* month
name but a calendar-invalid day also aborts the PDF parse — the
unrecognized-month condition is not the only fatal one. -/
theorem C5_counterexample :
    monthNum (S "FEVRIER") = some 2 ∧
    parse_unppci_pdf [["SEMAINE DU LUNDI 30 AU MARDI 31 FEVRIER 2026"]] "" "f" "t" =
      .error (.badDate 2026 2 30) := by
  exact ⟨by decide, by decide⟩

/-- Claim C5 (amended): the PDF parse aborts exactly through the failures
of the date resolver — an unrecognized month name or a calendar-invalid
date inside a date-shaped line; every other line is classified or dropped
without raising. -/
theorem C5_amended :
    (∀ pages u f t, (∀ l ∈ pdfLines pages, (tryParseWeek l).isOk = true) →
      ∃ p, parse_unppci_pdf pages u f t = .ok p) ∧
    (∀ line e, tryParseWeek line = .error e →
      ((∃ nm, e = .unknownMonth nm) ∨ ∃ a b c, e = .badDate a b c) ∧
      ((searchAux matchWeekC line).isSome = true ∨
       (searchAux matchWeekB line).isSome = true ∨
       (searchAux matchWeekA line).isSome = true)) := by
  constructor
  · intro pages u f t h
    obtain ⟨st2, hst2⟩ := runLines_ok (pdfLines pages) ⟨[], none⟩ h
    refine ⟨⟨"unppci", u, f, t, finishWeeks st2⟩, ?_⟩
    unfold parse_unppci_pdf
    rw [hst2]
  · intro line e herr
    unfold tryParseWeek at herr
    cases hC : searchAux matchWeekC line with
    | some g =>
      rw [hC] at herr
      obtain ⟨d1, m1, y1, d2, m2, y2⟩ := g
      exact ⟨frPair_err herr, Or.inl rfl⟩
    | none =>
      rw [hC] at herr
      cases hB : searchAux matchWeekB line with
      | some g =>
        rw [hB] at herr
        obtain ⟨d1, m1, d2, m2, y⟩ := g
        exact ⟨frPair_err herr, Or.inr (Or.inl rfl)⟩
      | none =>
        rw [hB] at herr
        cases hA : searchAux matchWeekA line with
        | some g =>
          rw [hA] at herr
          obtain ⟨d1, d2, mon, y⟩ := g
          exact ⟨frPair_err herr, Or.inr (Or.inr rfl)⟩
        | none =>
          rw [hA] at herr
          cases herr

/-- Witness for C5 (amended): a header-free document parses successfully,
and the concrete invalid-day error is of the stated shape on a
date-shaped line. -/
theorem C5_amended_witness :
    (∃ p, parse_unppci_pdf [["bonjour tout le monde", "PHCIE DES ROSIERS"]] "u" "f" "t" =
      .ok p) ∧
    (((∃ nm, (PErr.badDate 2026 2 30) = .unknownMonth nm) ∨
        ∃ a b c, (PErr.badDate 2026 2 30) = .badDate a b c) ∧
      ((searchAux matchWeekC (S "SEMAINE DU LUNDI 30 AU MARDI 31 FEVRIER 2026")).isSome = true ∨
       (searchAux matchWeekB (S "SEMAINE DU LUNDI 30 AU MARDI 31 FEVRIER 2026")).isSome = true ∨
       (searchAux matchWeekA (S "SEMAINE DU LUNDI 30 AU MARDI 31 FEVRIER 2026")).isSome = true)) :=
  ⟨C5_amended.1 [["bonjour tout le monde", "PHCIE DES ROSIERS"]] "u" "f" "t" (by decide),
   C5_amended.2 (S "SEMAINE DU LUNDI 30 AU MARDI 31 FEVRIER 2026")
     (.badDate 2026 2 30) (by decide)⟩

/-- Claim C2 counterexample: on the line
`"ABENGOUROU PHCIE DU MARCHE / MME KOFFI"` the extracted pharmacy name is
`"DU MARCHE"` — the text *after* the pharmacy keyword truncated at the
first separator — not `"PHCIE DU MARCHE"` as the claim states. -/
theorem C2_counterexample :
    parse_unppci_pdf [["SEMAINE DU SAMEDI 07 AU VENDREDI 13 FEVRIER 2026",
        "ABENGOUROU PHCIE DU MARCHE / MME KOFFI"]] "" "f.pdf" "t" =
      .ok ⟨"unppci", "", "f.pdf", "t",
        [⟨"2026-02-07", "2026-02-13",
          [⟨"ABENGOUROU", [⟨"DU MARCHE", "", []⟩]⟩]⟩]⟩ ∧
    ("DU MARCHE" : String) ≠ "PHCIE DU MARCHE" := by
  exact ⟨by decide, by decide⟩

/-- Claim C2 (amended): a line of shape
`<CITY WORDS> <PHARMACY KEYWORD> <rest>` with a valid city span (≥ 3
characters, no address keyword) creates or reuses the Area named by the
upper-cased city span and appends a PharmacyEntry with empty address whose
name is the truncation of `<rest>` (the text after the keyword) at the
first separator; in particular the `ABENGOUROU` line yields Area
`"ABENGOUROU"` and pharmacy name `"DU MARCHE"`. -/
theorem C2_city_pharm :
    (∀ dw c line g1 rest city,
      line.isEmpty = false →
      tryParseWeek line = .ok none →
      hasPre (S "SECTION") (line.map pyUpper) = false →
      hasPre (S "PERMANENCE") (line.map pyUpper) = false →
      hasPre (S "TOUR DE GARDE") (line.map pyUpper) = false →
      looks_like_area line = false →
      cityPharmMatch line = some (g1, rest) →
      city = (stripWs g1).map pyUpper →
      cityOk city = true →
      ((regLookup (String.mk city) c.registry = none →
        processLine ⟨dw, some c⟩ line = .ok ⟨dw, some ⟨c.week_start, c.week_end,
          c.areas ++ [⟨String.mk city, [⟨String.mk (extract_pharmacy_name rest), "",
            (extract_phones_pdf line).map String.mk⟩]⟩],
          c.registry ++ [(String.mk city, c.areas.length)], some c.areas.length⟩⟩) ∧
       (∀ i, regLookup (String.mk city) c.registry = some i →
        processLine ⟨dw, some c⟩ line = .ok ⟨dw, some ⟨c.week_start, c.week_end,
          listModify (fun a => ⟨a.area, a.pharmacies ++
            [⟨String.mk (extract_pharmacy_name rest), "",
              (extract_phones_pdf line).map String.mk⟩]⟩) i c.areas,
          c.registry, some i⟩⟩))) ∧
    parse_unppci_pdf [["SEMAINE DU SAMEDI 07 AU VENDREDI 13 FEVRIER 2026",
        "ABENGOUROU PHCIE DU MARCHE / MME KOFFI"]] "" "f.pdf" "t" =
      .ok ⟨"unppci", "", "f.pdf", "t",
        [⟨"2026-02-07", "2026-02-13",
          [⟨"ABENGOUROU", [⟨"DU MARCHE", "", []⟩]⟩]⟩]⟩ := by
  constructor
  · intro dw c line g1 rest city hempty hweek h1 h2 h3 harea hcity hcdef hok
    have hstep : processLine ⟨dw, some c⟩ line = .ok ⟨dw, some (classifyLine c line)⟩ := by
      simp [processLine, hempty, hweek]
    have hclass : classifyLine c line = cityStep c city rest line := by
      unfold classifyLine
      simp only [h1, h2, h3, Bool.or_false, Bool.false_or, if_neg, harea, hcity,
        Bool.false_eq_true, if_false]
      rw [← hcdef, if_pos hok]
    constructor
    · intro hreg
      rw [hstep, hclass]
      simp only [cityStep, hreg]
    · intro i hreg
      rw [hstep, hclass]
      simp only [cityStep, hreg]
  · exact (by decide)

/-- Witness for C2 (amended) at the concrete `ABENGOUROU` line in a fresh
week. -/
theorem C2_city_pharm_witness :
    processLine ⟨[], some ⟨"2026-02-07", "2026-02-13", [], [], none⟩⟩
        (S "ABENGOUROU PHCIE DU MARCHE / MME KOFFI") =
      .ok ⟨[], some ⟨"2026-02-07", "2026-02-13",
        [⟨"ABENGOUROU", [⟨"DU MARCHE", "", []⟩]⟩],
        [("ABENGOUROU", 0)], some 0⟩⟩ := by
  have h := (C2_city_pharm.1 [] ⟨"2026-02-07", "2026-02-13", [], [], none⟩
      (S "ABENGOUROU PHCIE DU MARCHE / MME KOFFI")
      (S "ABENGOUROU") (S "DU MARCHE / MME KOFFI") (S "ABENGOUROU")
      (by decide) (by decide) (by decide) (by decide) (by decide) (by decide)
      (by decide) (by decide) (by decide)).1 (by decide)
  rw [h]
  decide

lemma modLast_append {α : Type} (f : α → α) (ps : List α) (p : α) :
    modLast f (ps ++ [p]) = ps ++ [f p] := by
  induction ps with
  | nil => rfl
  | cons a ps ih =>
    cases hq : ps ++ [p] with
    | nil => simp at hq
    | cons b rest =>
      show modLast f (a :: (ps ++ [p])) = _
      rw [hq]
      show a :: modLast f (b :: rest) = a :: (ps ++ [f p])
      rw [← hq, ih]

lemma listModify_eq_set {α : Type} (f : α → α) (l : List α) : ∀ (i : Nat) (a : α),
    l.get? i = some a → listModify f i l = l.set i (f a) := by
  induction l with
  | nil => intro i a h; cases h
  | cons x xs ih =>
    intro i a h
    cases i with
    | zero =>
      injection h with h2
      subst h2
      rfl
    | succ n =>
      show x :: listModify f n xs = x :: xs.set n (f a)
      rw [ih n a h]

/-- Claim C9: a continuation line reached when the current area has at
least one entry modifies only the last pharmacy of that area (the list is
updated at the current index, all earlier entries kept verbatim); with a
phone-like digit run the extracted phones are merged without duplicates,
otherwise the whole line is folded onto that entry's address. -/
theorem C9_continuation :
    ∀ dw c line i a ps p,
      c.curArea = some i →
      c.areas.get? i = some a →
      a.pharmacies = ps ++ [p] →
      line.isEmpty = false →
      tryParseWeek line = .ok none →
      hasPre (S "SECTION") (line.map pyUpper) = false →
      hasPre (S "PERMANENCE") (line.map pyUpper) = false →
      hasPre (S "TOUR DE GARDE") (line.map pyUpper) = false →
      looks_like_area line = false →
      cityPharmMatch line = none →
      pharmMatch line = none →
      (processLine ⟨dw, some c⟩ line = .ok ⟨dw, some ⟨c.week_start, c.week_end,
        c.areas.set i ⟨a.area, ps ++ [contUpdate line p]⟩,
        c.registry, some i⟩⟩ ∧
      (phoneLikeSearch true line = true →
        (contUpdate line p).phones_raw =
          mergePhones p.phones_raw ((extract_phones_pdf line).map String.mk)) ∧
      (phoneLikeSearch true line = false →
        contUpdate line p = ⟨p.name_raw, addrFold p.address_raw line, p.phones_raw⟩)) := by
  intro dw c line i a ps p hcur hget hps hempty hweek h1 h2 h3 harea hcity hpharm
  have hstep : processLine ⟨dw, some c⟩ line = .ok ⟨dw, some (classifyLine c line)⟩ := by
    simp [processLine, hempty, hweek]
  have hclass : classifyLine c line = contStep c line := by
    unfold classifyLine pharmOrCont
    simp only [h1, h2, h3, Bool.or_false, Bool.false_or, harea, Bool.false_eq_true,
      if_false, hcity, hpharm]
  have hcont : contStep c line = ⟨c.week_start, c.week_end,
      c.areas.set i ⟨a.area, ps ++ [contUpdate line p]⟩, c.registry, some i⟩ := by
    unfold contStep
    simp only [hcur, hget]
    rw [if_neg (by simp [hps])]
    rw [listModify_eq_set _ _ i a hget, hps, modLast_append]
  refine ⟨by rw [hstep, hclass, hcont, ← hcur], ?_, ?_⟩
  · intro hp
    simp only [contUpdate, hp, if_true]
    split <;> rfl
  · intro hp
    simp only [contUpdate, hp, Bool.false_eq_true, if_false]

/-- Witness for C9: a pure-address line attaches to the second (last)
pharmacy only, leaving the first untouched. -/
theorem C9_continuation_witness :
    processLine ⟨[], some ⟨"2026-02-07", "2026-02-13",
        [⟨"ABIDJAN", [⟨"A", "", []⟩, ⟨"B", "", []⟩]⟩], [("ABIDJAN", 0)], some 0⟩⟩
        (S "ROUTE DU ZOO") =
      .ok ⟨[], some ⟨"2026-02-07", "2026-02-13",
        [⟨"ABIDJAN", [⟨"A", "", []⟩, ⟨"B", "ROUTE DU ZOO", []⟩]⟩],
        [("ABIDJAN", 0)], some 0⟩⟩ := by
  have h := (C9_continuation [] ⟨"2026-02-07", "2026-02-13",
      [⟨"ABIDJAN", [⟨"A", "", []⟩, ⟨"B", "", []⟩]⟩], [("ABIDJAN", 0)], some 0⟩
      (S "ROUTE DU ZOO") 0 ⟨"ABIDJAN", [⟨"A", "", []⟩, ⟨"B", "", []⟩]⟩
      [⟨"A", "", []⟩] ⟨"B", "", []⟩ rfl rfl rfl
      (by decide) (by decide) (by decide) (by decide) (by decide) (by decide)
      (by decide) (by decide)).1
  rw [h]
  decide

lemma htmlLoop_step_nil_acc (m : HNode) (l : List HNode) (hm3 : m.name ≠ "h3") :
    htmlLoop (m :: l) [] =
      if isTargetTag m.name = true ∧ ((m.name = "h2" ∨ m.name = "h3") ∧
          String.mk (clean_text m.text.data) ∈ STOP_TITLES) then []
      else htmlLoop l [] := by
  simp only [htmlLoop]
  by_cases ht : isTargetTag m.name = true
  · by_cases hs : (m.name = "h2" ∨ m.name = "h3") ∧
        String.mk (clean_text m.text.data) ∈ STOP_TITLES
    · simp [ht, hs]
    · by_cases h4 : m.name = "h4"
      · simp [ht, hs, hm3, h4]
      · simp [ht, hs, hm3, h4]
  · simp [ht]

/-- Claim C10: an `h4` pharmacy heading encountered after the anchor but
before any `h3` area heading is silently skipped — removing it leaves the
traversal result (and hence the payload) unchanged, and no error can
arise (the traversal is total). -/
theorem C10_orphan_h4 (n : HNode) (hn : n.name = "h4") :
    ∀ pre rest, (∀ m ∈ pre, m.name ≠ "h3") →
      htmlLoop (pre ++ n :: rest) [] = htmlLoop (pre ++ rest) [] := by
  intro pre
  induction pre with
  | nil =>
    intro rest _
    simp only [List.nil_append]
    rw [htmlLoop_step_nil_acc n rest (by rw [hn]; decide)]
    rw [hn]
    rw [if_neg (by simp)]
  | cons m pre ih =>
    intro rest hpre
    have hm3 : m.name ≠ "h3" := hpre m (by simp)
    have ih2 := ih rest (fun x hx => hpre x (by simp [hx]))
    show htmlLoop (m :: (pre ++ n :: rest)) [] = htmlLoop (m :: (pre ++ rest)) []
    rw [htmlLoop_step_nil_acc m _ hm3, htmlLoop_step_nil_acc m _ hm3]
    by_cases hC : isTargetTag m.name = true ∧ ((m.name = "h2" ∨ m.name = "h3") ∧
        String.mk (clean_text m.text.data) ∈ STOP_TITLES)
    · rw [if_pos hC, if_pos hC]
    · rw [if_neg hC, if_neg hC]
      exact ih2

/-- Witness for C10: dropping an orphan `h4` before the first `h3` leaves
the traversal result unchanged. -/
theorem C10_orphan_h4_witness :
    htmlLoop [⟨"p", "intro"⟩, ⟨"h4", "Pharmacie Orpheline"⟩,
        ⟨"h3", "ABIDJAN"⟩, ⟨"h4", "PHCIE A"⟩] [] =
      htmlLoop [⟨"p", "intro"⟩, ⟨"h3", "ABIDJAN"⟩, ⟨"h4", "PHCIE A"⟩] [] :=
  C10_orphan_h4 ⟨"h4", "Pharmacie Orpheline"⟩ rfl [⟨"p", "intro"⟩]
    [⟨"h3", "ABIDJAN"⟩, ⟨"h4", "PHCIE A"⟩] (by decide)

lemma isPySpace_pyUpper (c : Char) : isPySpace (pyUpper c) = isPySpace c := by
  unfold pyUpper
  split <;> first | rfl | decide

lemma pyUpper_pyUpper (c : Char) : pyUpper (pyUpper c) = pyUpper c := by
  have hfix : ∀ x ∈ S "ABCDEFGHIJKLMNOPQRSTUVWXYZÉÈÊËÂÀÎÏÔÖÛÜÇ", pyUpper x = x := by
    decide
  have h : pyUpper c = c ∨
      pyUpper c ∈ S "ABCDEFGHIJKLMNOPQRSTUVWXYZÉÈÊËÂÀÎÏÔÖÛÜÇ" := by
    unfold pyUpper
    split <;> simp [S]
  rcases h with h | h
  · rw [h]
    exact h
  · exact hfix _ h

lemma dropWhile_dropWhile (p : Char → Bool) (l : Str) :
    (l.dropWhile p).dropWhile p = l.dropWhile p := by
  induction l with
  | nil => rfl
  | cons c cs ih =>
    by_cases hc : p c = true
    · rw [List.dropWhile_cons_of_pos hc]
      exact ih
    · rw [List.dropWhile_cons_of_neg (by simpa using hc),
        List.dropWhile_cons_of_neg (by simpa using hc)]

lemma map_pyUpper_stripWs (l : Str) :
    stripWs (l.map pyUpper) = (stripWs l).map pyUpper := by
  unfold stripWs rstripWs lstripWs
  have hcomp : ((fun c => isPySpace c) ∘ pyUpper) = (fun c => isPySpace c) :=
    funext fun c => isPySpace_pyUpper c
  rw [List.dropWhile_map, hcomp, ← List.map_reverse, List.dropWhile_map, hcomp,
    ← List.map_reverse]

lemma dropWhile_rstrip_self (p : Char → Bool) (l : Str) (h : l.dropWhile p = l) :
    ((l.reverse.dropWhile p).reverse).dropWhile p = (l.reverse.dropWhile p).reverse := by
  cases l with
  | nil => rfl
  | cons c cs =>
    have hc : p c = false := by
      by_contra hcc
      have hcc2 : p c = true := by simpa using hcc
      rw [List.dropWhile_cons_of_pos hcc2] at h
      have hlen := congrArg List.length h
      have hle : (cs.dropWhile p).length ≤ cs.length :=
        (List.dropWhile_suffix p).length_le
      simp only [List.length_cons] at hlen
      omega
    have hpre : ((c :: cs).reverse.dropWhile p).reverse <+: (c :: cs) := by
      have h2 := List.reverse_prefix.mpr (List.dropWhile_suffix (l := (c :: cs).reverse) p)
      rwa [List.reverse_reverse] at h2
    cases hr : ((c :: cs).reverse.dropWhile p).reverse with
    | nil => rfl
    | cons d ds =>
      have hd : d = c := by
        obtain ⟨t, ht⟩ := hpre
        rw [hr, List.cons_append] at ht
        injection ht with h1 h2
      rw [List.dropWhile_cons_of_neg (by rw [hd]; simp [hc])]

lemma stripWs_idem (l : Str) : stripWs (stripWs l) = stripWs l := by
  unfold stripWs rstripWs lstripWs
  rw [dropWhile_rstrip_self _ _ (dropWhile_dropWhile _ l), List.reverse_reverse,
    dropWhile_dropWhile]

lemma city_strip_fixed (g1 : Str) :
    stripWs (((stripWs g1).map pyUpper).map pyUpper) = (stripWs g1).map pyUpper := by
  rw [List.map_map, show (pyUpper ∘ pyUpper) = pyUpper from funext pyUpper_pyUpper,
    map_pyUpper_stripWs, stripWs_idem]

/-- The normalized label of an Area (`label.upper().strip()`), as used by
the `area_by_name` registry. -/
def labelKey (a : Area) : String := String.mk (stripWs (a.area.data.map pyUpper))

/-- Invariant of the per-week classifier state: normalized area labels are
pairwise distinct, and every existing label resolves in the registry. -/
def curInv (c : CurWeek) : Prop :=
  List.Pairwise Ne (c.areas.map labelKey) ∧
  ∀ k ∈ c.areas.map labelKey, regLookup k c.registry ≠ none

def stInv (st : PState) : Prop :=
  (∀ w ∈ st.doneWeeks, List.Pairwise Ne (w.areas.map labelKey)) ∧
  (∀ c, st.cur = some c → curInv c)

lemma regLookup_append_some {k : String} {r1 : List (String × Nat)} {i : Nat}
    (h : regLookup k r1 = some i) (r2 : List (String × Nat)) :
    regLookup k (r1 ++ r2) = some i := by
  induction r1 with
  | nil => cases h
  | cons e r1 ih =>
    obtain ⟨k2, j⟩ := e
    by_cases hk : k2 = k
    · rw [show regLookup k ((k2, j) :: r1) = some j from by simp [regLookup, hk]] at h
      show regLookup k ((k2, j) :: (r1 ++ r2)) = some i
      rw [show regLookup k ((k2, j) :: (r1 ++ r2)) = some j from by simp [regLookup, hk]]
      exact h
    · rw [show regLookup k ((k2, j) :: r1) = regLookup k r1 from by simp [regLookup, hk]] at h
      show regLookup k ((k2, j) :: (r1 ++ r2)) = some i
      rw [show regLookup k ((k2, j) :: (r1 ++ r2)) = regLookup k (r1 ++ r2) from by
        simp [regLookup, hk]]
      exact ih h

lemma regLookup_append_none {k : String} {r1 : List (String × Nat)}
    (h : regLookup k r1 = none) (r2 : List (String × Nat)) :
    regLookup k (r1 ++ r2) = regLookup k r2 := by
  induction r1 with
  | nil => rfl
  | cons e r1 ih =>
    obtain ⟨k2, j⟩ := e
    by_cases hk : k2 = k
    · rw [show regLookup k ((k2, j) :: r1) = some j from by simp [regLookup, hk]] at h
      cases h
    · rw [show regLookup k ((k2, j) :: r1) = regLookup k r1 from by simp [regLookup, hk]] at h
      show regLookup k ((k2, j) :: (r1 ++ r2)) = regLookup k r2
      rw [show regLookup k ((k2, j) :: (r1 ++ r2)) = regLookup k (r1 ++ r2) from by
        simp [regLookup, hk]]
      exact ih h

lemma listModify_map_labelKey (f : Area → Area) (hf : ∀ a, (f a).area = a.area) :
    ∀ (i : Nat) (l : List Area), (listModify f i l).map labelKey = l.map labelKey := by
  intro i l
  induction l generalizing i with
  | nil => cases i <;> rfl
  | cons a as ih =>
    cases i with
    | zero =>
      show labelKey (f a) :: as.map labelKey = labelKey a :: as.map labelKey
      rw [show labelKey (f a) = labelKey a from by unfold labelKey; rw [hf a]]
    | succ n =>
      show labelKey a :: (listModify f n as).map labelKey = labelKey a :: as.map labelKey
      rw [ih n]

lemma listModify_pharm_labelKey (g : Area → List Pharmacy) (i : Nat) (l : List Area) :
    (listModify (fun a => ⟨a.area, g a⟩) i l).map labelKey = l.map labelKey :=
  listModify_map_labelKey (fun a => ⟨a.area, g a⟩) (fun _ => rfl) i l

lemma areaStep_inv (c : CurWeek) (line : Str) (h : curInv c) :
    curInv (areaStep c line (line.map pyUpper)) := by
  simp only [areaStep]
  cases hreg : regLookup (String.mk (stripWs (line.map pyUpper))) c.registry with
  | some i =>
    simp only [hreg]
    exact ⟨h.1, h.2⟩
  | none =>
    simp only [hreg]
    constructor
    · show List.Pairwise Ne ((c.areas ++ [(⟨String.mk line, []⟩ : Area)]).map labelKey)
      rw [List.map_append, List.pairwise_append]
      refine ⟨h.1, List.pairwise_singleton Ne _, ?_⟩
      intro a ha b hb
      simp only [List.map_cons, List.map_nil, List.mem_singleton] at hb
      subst hb
      intro heq
      have hcomp := h.2 a ha
      rw [heq, show labelKey ⟨String.mk line, []⟩ =
        String.mk (stripWs (line.map pyUpper)) from rfl] at hcomp
      exact hcomp hreg
    · intro k hk
      rw [List.map_append] at hk
      rcases List.mem_append.mp hk with hk | hk
      · cases hold : regLookup k c.registry with
        | none => exact absurd hold (h.2 k hk)
        | some i =>
          rw [regLookup_append_some hold]
          simp
      · simp only [List.map_cons, List.map_nil, List.mem_singleton] at hk
        subst hk
        rw [show labelKey ⟨String.mk line, []⟩ =
          String.mk (stripWs (line.map pyUpper)) from rfl]
        rw [regLookup_append_none hreg]
        simp [regLookup]

lemma cityStep_inv (c : CurWeek) (g1 rest line : Str) (h : curInv c) :
    curInv (cityStep c ((stripWs g1).map pyUpper) rest line) := by
  have hkey : ∀ ps : List Pharmacy,
      labelKey ⟨String.mk ((stripWs g1).map pyUpper), ps⟩ =
        String.mk ((stripWs g1).map pyUpper) := by
    intro ps
    unfold labelKey
    exact congrArg String.mk (city_strip_fixed g1)
  simp only [cityStep]
  cases hreg : regLookup (String.mk ((stripWs g1).map pyUpper)) c.registry with
  | some i =>
    simp only [hreg]
    constructor
    · show List.Pairwise Ne ((listModify _ i c.areas).map labelKey)
      rw [listModify_pharm_labelKey]
      exact h.1
    · intro k hk
      rw [listModify_pharm_labelKey] at hk
      exact h.2 k hk
  | none =>
    simp only [hreg]
    constructor
    · show List.Pairwise Ne ((c.areas ++ _).map labelKey)
      rw [List.map_append, List.pairwise_append]
      refine ⟨h.1, List.pairwise_singleton Ne _, ?_⟩
      intro a ha b hb
      simp only [List.map_cons, List.map_nil, List.mem_singleton] at hb
      subst hb
      intro heq
      have hcomp := h.2 a ha
      rw [heq, hkey] at hcomp
      exact hcomp hreg
    · intro k hk
      rw [List.map_append] at hk
      rcases List.mem_append.mp hk with hk | hk
      · cases hold : regLookup k c.registry with
        | none => exact absurd hold (h.2 k hk)
        | some i =>
          rw [regLookup_append_some hold]
          simp
      · simp only [List.map_cons, List.map_nil, List.mem_singleton] at hk
        subst hk
        rw [hkey, regLookup_append_none hreg]
        simp [regLookup]

lemma contStep_inv (c : CurWeek) (line : Str) (h : curInv c) :
    curInv (contStep c line) := by
  unfold contStep
  cases hcur : c.curArea with
  | none => exact h
  | some i =>
    cases hget : c.areas.get? i with
    | none =>
      simp only [hget]
      exact h
    | some a =>
      simp only [hget]
      by_cases hemp : a.pharmacies.isEmpty = true
      · rw [if_pos hemp]
        exact h
      · rw [if_neg hemp]
        constructor
        · show List.Pairwise Ne ((listModify _ i c.areas).map labelKey)
          rw [listModify_pharm_labelKey]
          exact h.1
        · intro k hk
          rw [listModify_pharm_labelKey] at hk
          exact h.2 k hk

lemma pharmOrCont_inv (c : CurWeek) (line : Str) (h : curInv c) :
    curInv (pharmOrCont c line) := by
  unfold pharmOrCont
  cases pharmMatch line with
  | none => exact contStep_inv c line h
  | some rest =>
    cases hcur : c.curArea with
    | none =>
      simp only [hcur]
      exact contStep_inv c line h
    | some i =>
      simp only [hcur]
      constructor
      · show List.Pairwise Ne ((listModify _ i c.areas).map labelKey)
        rw [listModify_pharm_labelKey]
        exact h.1
      · intro k hk
        rw [listModify_pharm_labelKey] at hk
        exact h.2 k hk

lemma classifyLine_inv (c : CurWeek) (line : Str) (h : curInv c) :
    curInv (classifyLine c line) := by
  simp only [classifyLine]
  by_cases hsec : (hasPre (S "SECTION") (line.map pyUpper) ||
      hasPre (S "PERMANENCE") (line.map pyUpper) ||
      hasPre (S "TOUR DE GARDE") (line.map pyUpper)) = true
  · rw [if_pos hsec]
    exact h
  · rw [if_neg hsec]
    by_cases harea : looks_like_area line = true
    · rw [if_pos harea]
      exact areaStep_inv c line h
    · rw [if_neg harea]
      cases hcity : cityPharmMatch line with
      | none => exact pharmOrCont_inv c line h
      | some pr =>
        obtain ⟨g1, rest⟩ := pr
        show curInv (if cityOk ((stripWs g1).map pyUpper) = true
          then cityStep c ((stripWs g1).map pyUpper) rest line
          else pharmOrCont c line)
        by_cases hok : cityOk ((stripWs g1).map pyUpper) = true
        · rw [if_pos hok]
          exact cityStep_inv c g1 rest line h
        · rw [if_neg hok]
          exact pharmOrCont_inv c line h

lemma freshWeek_inv (ws we : String) : curInv ⟨ws, we, [], [], none⟩ := by
  constructor
  · exact List.Pairwise.nil
  · intro k hk
    cases hk

lemma weekStep_inv (st : PState) (ws we : PDate) (h : stInv st) :
    stInv (weekStep st ws we) := by
  unfold weekStep
  cases hcur : st.cur with
  | none =>
    refine ⟨h.1, ?_⟩
    intro c hc
    injection hc with hc2
    subst hc2
    exact freshWeek_inv _ _
  | some c =>
    show stInv (if c.week_start = isoDate ws ∧ c.week_end = isoDate we then st
      else ⟨st.doneWeeks ++ [⟨c.week_start, c.week_end, c.areas⟩],
        some ⟨isoDate ws, isoDate we, [], [], none⟩⟩)
    by_cases heq : (c.week_start = isoDate ws ∧ c.week_end = isoDate we)
    · rw [if_pos heq]
      exact h
    · rw [if_neg heq]
      constructor
      · intro w hw
        rcases List.mem_append.mp hw with hw | hw
        · exact h.1 w hw
        · simp only [List.mem_singleton] at hw
          subst hw
          exact ((h.2 c hcur).1 : List.Pairwise Ne (c.areas.map labelKey))
      · intro c2 hc2
        injection hc2 with hc3
        subst hc3
        exact freshWeek_inv _ _

lemma processLine_inv (st : PState) (l : Str) (st2 : PState) (h : stInv st)
    (hp : processLine st l = .ok st2) : stInv st2 := by
  unfold processLine at hp
  by_cases he : l.isEmpty = true
  · rw [if_pos he] at hp
    injection hp with hp2
    subst hp2
    exact h
  · rw [if_neg he] at hp
    cases htry : tryParseWeek l with
    | error e => rw [htry] at hp; cases hp
    | ok w =>
      rw [htry] at hp
      cases w with
      | some pr =>
        obtain ⟨ws, we⟩ := pr
        injection hp with hp2
        subst hp2
        exact weekStep_inv st ws we h
      | none =>
        cases hcur : st.cur with
        | none =>
          rw [hcur] at hp
          injection hp with hp2
          subst hp2
          exact h
        | some c =>
          rw [hcur] at hp
          injection hp with hp2
          subst hp2
          refine ⟨h.1, ?_⟩
          intro c2 hc2
          injection hc2 with hc3
          subst hc3
          exact classifyLine_inv c l (h.2 c hcur)

lemma runLines_inv (lines : List Str) : ∀ st st2 : PState, stInv st →
    runLines st lines = .ok st2 → stInv st2 := by
  induction lines with
  | nil =>
    intro st st2 h hp
    injection hp with hp2
    subst hp2
    exact h
  | cons l ls ih =>
    intro st st2 h hp
    rw [show runLines st (l :: ls) =
        (match processLine st l with
         | .error e => .error e
         | .ok s2 => runLines s2 ls) from rfl] at hp
    cases hstep : processLine st l with
    | error e => rw [hstep] at hp; cases hp
    | ok s2 =>
      rw [hstep] at hp
      exact ih s2 st2 (processLine_inv st l s2 h hstep) hp

/-- Claim C6 counterexample: on the HTML path every `h3` heading appends a
fresh Area, so a repeated area heading yields two Areas with identical
labels in one period — uniqueness does not hold there. -/
theorem C6_counterexample :
    parse_annuaireci [⟨"h2", "Semaine du 07/02/2026 au 13/02/2026"⟩,
        ⟨"h3", "Liste des pharmacies de garde"⟩,
        ⟨"h3", "ABIDJAN"⟩, ⟨"h3", "ABIDJAN"⟩] "t" =
      .ok ⟨"annuaireci", annuaireURL, "2026-02-07", "2026-02-13",
        [⟨"ABIDJAN", []⟩, ⟨"ABIDJAN", []⟩], "t"⟩ ∧
    ¬ List.Pairwise Ne (([⟨"ABIDJAN", []⟩, ⟨"ABIDJAN", []⟩] : List Area).map labelKey) := by
  constructor
  · decide
  · intro hpw
    cases hpw with
    | cons h1 _ => exact h1 _ (List.mem_singleton.mpr rfl) rfl

/-- Claim C6 (amended): on the PDF path, within any single period of the
output the normalized (upper-cased, stripped) area labels are pairwise
distinct — a second header with the same normalized label reuses the
existing Area; on the HTML path every area heading appends a fresh Area,
so duplicates can occur (concrete duplicate exhibited in the second
conjunct). -/
theorem C6_area_unique :
    (∀ pages u f t p, parse_unppci_pdf pages u f t = .ok p →
      ∀ w ∈ p.weeks, List.Pairwise Ne (w.areas.map labelKey)) ∧
    parse_annuaireci [⟨"h2", "Semaine du 07/02/2026 au 13/02/2026"⟩,
        ⟨"h3", "Liste des pharmacies de garde"⟩,
        ⟨"h3", "ABIDJAN"⟩, ⟨"h3", "ABIDJAN"⟩] "t" =
      .ok ⟨"annuaireci", annuaireURL, "2026-02-07", "2026-02-13",
        [⟨"ABIDJAN", []⟩, ⟨"ABIDJAN", []⟩], "t"⟩ := by
  constructor
  · intro pages u f t p hp
    unfold parse_unppci_pdf at hp
    cases hr : runLines ⟨[], none⟩ (pdfLines pages) with
    | error e =>
      rw [hr] at hp
      cases hp
    | ok st =>
      rw [hr] at hp
      injection hp with hp2
      subst hp2
      have hinv : stInv st :=
        runLines_inv (pdfLines pages) ⟨[], none⟩ st
          ⟨(by intro w hw; cases hw), (by intro c hc; cases hc)⟩ hr
      intro w hw
      rw [show (⟨"unppci", u, f, t, finishWeeks st⟩ : PdfPayload).weeks =
        finishWeeks st from rfl] at hw
      unfold finishWeeks at hw
      rcases List.mem_append.mp hw with hw | hw
      · exact hinv.1 w hw
      · cases hcur : st.cur with
        | none =>
          rw [hcur] at hw
          cases hw
        | some c =>
          rw [hcur] at hw
          simp only [List.mem_singleton] at hw
          subst hw
          exact (hinv.2 c hcur).1
  · decide

/-- Witness for C6 (amended): a PDF document that mentions the same area
twice yields one Area, with distinct labels in the resulting week. -/
theorem C6_area_unique_witness :
    ∀ w ∈ (⟨"unppci", "", "f", "t",
        [⟨"2026-02-07", "2026-02-13",
          [⟨"COCODY", [⟨"DES ARTS", "", []⟩, ⟨"NOUVELLE", "", []⟩]⟩]⟩]⟩ : PdfPayload).weeks,
      List.Pairwise Ne (w.areas.map labelKey) :=
  C6_area_unique.1
    [["SEMAINE DU SAMEDI 07 AU VENDREDI 13 FEVRIER 2026", "COCODY",
      "PHCIE DES ARTS", "COCODY", "PHCIE NOUVELLE"]] "" "f" "t"
    ⟨"unppci", "", "f", "t",
      [⟨"2026-02-07", "2026-02-13",
        [⟨"COCODY", [⟨"DES ARTS", "", []⟩, ⟨"NOUVELLE", "", []⟩]⟩]⟩]⟩
    (by decide)
